import Mathlib

set_option autoImplicit false
set_option linter.unusedVariables false

/- Verification of the text_to_image_retriever pipeline: a shallow embedding of
the tile registry, scheduler routing, embedder worker batch processing, vector
store service and identity utilities, with theorems checking the behaviour
documented in the specification against the code. -/

namespace Retriever

/- Python `dict` modelled as an insertion-ordered association list.
`dictGet` mirrors `d.get(k)`; `dictSet` mirrors `d[k] = v` (replace in place
when the key exists, append otherwise); `groupAppend` mirrors
`d.setdefault(k, []).append(v)`. -/

def dictGet {α β : Type} [DecidableEq α] : List (α × β) → α → Option β
  | [], _ => none
  | (k', v) :: rest, k => if k' = k then some v else dictGet rest k

def dictSet {α β : Type} [DecidableEq α] : List (α × β) → α → β → List (α × β)
  | [], k, v => [(k, v)]
  | (k', v') :: rest, k, v =>
      if k' = k then (k', v) :: rest else (k', v') :: dictSet rest k v

def groupAppend {α β : Type} [DecidableEq α] :
    List (α × List β) → α → β → List (α × List β)
  | [], k, v => [(k, [v])]
  | (k', vs) :: rest, k, v =>
      if k' = k then (k', vs ++ [v]) :: rest else (k', vs) :: groupAppend rest k v

def groupByKey {α β : Type} [DecidableEq α] (key : β → α) (l : List β) :
    List (α × List β) :=
  l.foldl (fun d b => groupAppend d (key b) b) []

/- Python string truthiness for `Optional[str]` values: `x or default`. -/
def pyOrStr (o : Option String) (default : String) : String :=
  match o with
  | none => default
  | some v => if v = "" then default else v

/- ------------------------------------------------------------------ -/
/- Retriever service search post-processing (services/retriever/app.py). -/
/- ------------------------------------------------------------------ -/

/- `_geo_nms_stub(rows, radius_m)`: "Placeholder for GeoNMS; currently returns
rows unchanged."  Rows are kept generic since the function never inspects
them. -/
def geoNmsStub {α : Type} (rows : List α) (radiusM : Option ℚ) : List α :=
  rows

/- The post-search step of the `/search` handler: when `apply_geo_nms` is set
the handler pipes the results through `_geo_nms_stub`. -/
def searchPostProcess {α : Type} (applyGeoNms : Bool) (radiusM : Option ℚ)
    (results : List α) : List α :=
  if applyGeoNms then geoNmsStub results radiusM else results

/- ------------------------------------------------------------------ -/
/- VectorDB service and LanceDB adapter (services/vectordb/app.py,
adapters/lancedb_adapter.py).  A vector row is abstracted to its id column
and its embedding; the database is the insertion-ordered list of tables.
ANN ranking is irrelevant to the claims checked here, so `vector_search`
is modelled as filter (`where`) plus `limit(k)`. -/
/- ------------------------------------------------------------------ -/

structure VRow where
  imageId : Int
  embedding : List ℚ
  deriving DecidableEq, Repr

abbrev DBState : Type := List (String × List VRow)

def tableNames (db : DBState) : List String :=
  db.map Prod.fst

/- `get_or_create_table`: opens an existing table, otherwise creates an empty
one from the schema. -/
def getOrCreateTable (db : DBState) (name : String) : DBState :=
  if name ∈ tableNames db then db else db ++ [(name, [])]

/- merge_insert on the id column: when-matched-update-all,
when-not-matched-insert-all. -/
def mergeById (tbl : List VRow) (rows : List VRow) : List VRow :=
  tbl.filter (fun r => ¬ (rows.map VRow.imageId).contains r.imageId) ++ rows

/- `LanceDBAdapter.upsert_rows`: note the call order of the source — the
table is created (via `get_or_create_table`) before the empty-rows check. -/
def upsertRows (db : DBState) (name : String) (rows : List VRow) :
    Nat × DBState :=
  let db1 := getOrCreateTable db name
  if rows.isEmpty then (0, db1)
  else
    let db2 := db1.map fun nt =>
      if nt.1 = name then (nt.1, mergeById nt.2 rows) else nt
    (rows.length, db2)

/- `LanceDBAdapter.vector_search`: `open_table` raises on a missing table
(modelled as `none`); otherwise the query filters by `where` and limits to
`k` rows. -/
def adapterVectorSearch (db : DBState) (name : String) (pred : VRow → Bool)
    (k : Nat) : Option (List VRow) :=
  (dictGet db name).map fun tbl => (tbl.filter pred).take k

inductive HttpResult (α : Type) where
  | ok (value : α)
  | error (statusCode : Nat) (detail : String)
  deriving DecidableEq, Repr

/- `POST /tables/{n}/search`: a missing table short-circuits to an empty
result list (HTTP 200), not an error. -/
def httpSearch (db : DBState) (name : String) (pred : VRow → Bool) (k : Nat) :
    HttpResult (List VRow) :=
  if name ∉ tableNames db then .ok []
  else
    match adapterVectorSearch db name pred k with
    | some results => .ok results
    | none => .ok []

/- `GET /tables/{n}/info`: 404 when the table does not exist; the payload is
abstracted to the row count. -/
def httpTableInfo (db : DBState) (name : String) : HttpResult Nat :=
  if name ∉ tableNames db then .error 404 ("Table not found: " ++ name)
  else
    match dictGet db name with
    | some tbl => .ok tbl.length
    | none => .ok 0

/- `POST /tables/{n}/delete`: 404 when the table does not exist; otherwise
returns the (rows_before, rows_after) pair of `delete_where`. -/
def httpDeleteWhere (db : DBState) (name : String) (pred : VRow → Bool) :
    HttpResult (Nat × Nat) × DBState :=
  if name ∉ tableNames db then
    (.error 404 ("Table not found: " ++ name), db)
  else
    match dictGet db name with
    | some tbl =>
        let tbl' := tbl.filter (fun r => ¬ pred r)
        let db' := db.map fun nt => if nt.1 = name then (nt.1, tbl') else nt
        (.ok (tbl.length, tbl'.length), db')
    | none => (.ok (0, 0), db)

/- `POST /tables/{n}/upsert`: empty `rows` short-circuits to `inserted=0`
before the adapter is touched; a first row without an embedding is a 400;
otherwise the adapter upsert runs. -/
def httpUpsert (db : DBState) (name : String) (rows : List VRow) :
    HttpResult Nat × DBState :=
  match rows with
  | [] => (.ok 0, db)
  | first :: _ =>
    if first.embedding.isEmpty then (.error 400 "Missing embedding in rows", db)
    else
      let nd := upsertRows db name rows
      (.ok nd.1, nd.2)

/- ------------------------------------------------------------------ -/
/- Tile registry (components/tiles_db): models, sqlite adapter reads and
status updates. -/
/- ------------------------------------------------------------------ -/

inductive TileStatus where
  | readyForIndexing
  | inProcess
  | indexed
  | failed
  deriving DecidableEq, Repr

/- `TileStatus.value` of the `str`-enum. -/
def TileStatus.value : TileStatus → String
  | .readyForIndexing => "ready_for_indexing"
  | .inProcess => "in_process"
  | .indexed => "indexed"
  | .failed => "failed"

/- The `TileStatus(status)` constructor call; `ValueError` on an unknown
value is modelled as `none`. -/
def parseTileStatus (s : String) : Option TileStatus :=
  if s = "ready_for_indexing" then some .readyForIndexing
  else if s = "in_process" then some .inProcess
  else if s = "indexed" then some .indexed
  else if s = "failed" then some .failed
  else none

/- A stored row of the `tiles` table (all columns nullable except the
primary key; SQLite REAL columns carried as rationals). -/
structure TRow where
  tileId : String
  gid : Option String := none
  sensor : Option String := none
  lon : Option ℚ := none
  lat : Option ℚ := none
  resolution : Option ℚ := none
  tilesSizeMeters : Option ℚ := none
  imagePath : Option String := none
  requestTime : Option String := none
  imagingTime : Option String := none
  status : Option String := none
  embedderModel : Option String := none
  deriving DecidableEq, Repr

structure TileResponse where
  tileId : String
  gid : Option String := none
  sensor : Option String := none
  lon : Option ℚ := none
  lat : Option ℚ := none
  resolution : Option ℚ := none
  tilesSizeMeters : Option ℚ := none
  imagePath : Option String := none
  requestTime : Option String := none
  imagingTime : Option String := none
  status : TileStatus
  embedderModel : Option String := none
  deriving DecidableEq, Repr

/- The status branch of `_row_to_response`: Python truthiness sends both a
NULL and an empty-string status to the fallback, and so does a string that
the `TileStatus` constructor rejects. -/
def statusFromRow (st : Option String) : TileStatus :=
  match st with
  | none => .readyForIndexing
  | some s =>
      if s = "" then .readyForIndexing
      else
        match parseTileStatus s with
        | some v => v
        | none => .readyForIndexing

def rowToResponse (r : TRow) : TileResponse :=
  { tileId := r.tileId
    gid := r.gid
    sensor := r.sensor
    lon := r.lon
    lat := r.lat
    resolution := r.resolution
    tilesSizeMeters := r.tilesSizeMeters
    imagePath := r.imagePath
    requestTime := r.requestTime
    imagingTime := r.imagingTime
    status := statusFromRow r.status
    embedderModel := r.embedderModel }

abbrev TilesDB : Type := List TRow

/- `_fetch_row`: SELECT ... WHERE tile_id = ? LIMIT 1. -/
def fetchRow (db : TilesDB) (tileId : String) : Option TRow :=
  db.find? (fun r => r.tileId = tileId)

/- `get_tile`. -/
def getTile (db : TilesDB) (tileId : String) : Option TileResponse :=
  (fetchRow db tileId).map rowToResponse

/- The row update performed by `update_tile` when `update_status` calls it
with `{"status": status.value}`. -/
def setRowStatus (tileId : String) (st : TileStatus) (r : TRow) : TRow :=
  if r.tileId = tileId then { r with status := some st.value } else r

/- `update_status` → `update_tile(tile_id, {"status": status.value})`:
missing tile returns `None`; otherwise the UPDATE is applied and the row is
read back.  No transition validation of any kind is performed. -/
def updateStatusDb (db : TilesDB) (tileId : String) (st : TileStatus) :
    Option TileResponse × TilesDB :=
  match fetchRow db tileId with
  | none => (none, db)
  | some _ =>
      let db' := db.map (setRowStatus tileId st)
      ((fetchRow db' tileId).map rowToResponse, db')

/- Input of `create_tile`; `statusKey = none` models the "status" key being
absent from the `tile_data` dict (the adapter then injects the default). -/
structure TileCreate where
  tileId : String
  statusKey : Option (Option String) := none
  gid : Option String := none
  sensor : Option String := none
  lon : Option ℚ := none
  lat : Option ℚ := none
  resolution : Option ℚ := none
  tilesSizeMeters : Option ℚ := none
  imagePath : Option String := none
  requestTime : Option String := none
  imagingTime : Option String := none
  embedderModel : Option String := none
  deriving DecidableEq, Repr

/- The row assembled by `create_tile` from `tile_data`: when the "status"
key is absent the default is injected first. -/
def createRow (data : TileCreate) : TRow :=
  { tileId := data.tileId
    gid := data.gid
    sensor := data.sensor
    lon := data.lon
    lat := data.lat
    resolution := data.resolution
    tilesSizeMeters := data.tilesSizeMeters
    imagePath := data.imagePath
    requestTime := data.requestTime
    imagingTime := data.imagingTime
    status :=
      match data.statusKey with
      | none => some (TileStatus.readyForIndexing.value)
      | some v => v
    embedderModel := data.embedderModel }

/- INSERT ... ON CONFLICT(tile_id) DO UPDATE SET of all non-key columns. -/
def createDb (db : TilesDB) (data : TileCreate) : TilesDB :=
  if data.tileId ∈ db.map TRow.tileId then
    db.map (fun r => if r.tileId = data.tileId then createRow data else r)
  else db ++ [createRow data]

/- `create_tile`: rejects a falsy tile_id (the raise is modelled as `none`),
upserts by primary key and reads the row back through `_row_to_response`. -/
def createTile (db : TilesDB) (data : TileCreate) :
    Option TileResponse × TilesDB :=
  if data.tileId = "" then (none, db)
  else ((fetchRow (createDb db data) data.tileId).map rowToResponse,
        createDb db data)

/- The WHERE clause of `list_tiles`: optional status filter compared
against the stored TEXT column (NULL never matches). -/
def listMatching (db : TilesDB) (statusFilter : Option TileStatus) : List TRow :=
  match statusFilter with
  | some st => db.filter (fun r => r.status = some st.value)
  | none => db

/- `list_tiles`: filter, ORDER BY tile_id, LIMIT/OFFSET; returns the page
and the total matching count. -/
def listTiles (db : TilesDB) (statusFilter : Option TileStatus)
    (limit offset : Nat) : List TileResponse × Nat :=
  (((((listMatching db statusFilter).insertionSort
      (fun a b => a.tileId ≤ b.tileId)).drop offset).take limit).map rowToResponse,
   (listMatching db statusFilter).length)

/- ------------------------------------------------------------------ -/
/- Helper lemmas. -/
/- ------------------------------------------------------------------ -/

theorem dictGet_eq_none_of_not_mem {α β : Type} [DecidableEq α] (d : List (α × β))
    (k : α) (h : k ∉ d.map Prod.fst) : dictGet d k = none := by
  induction d with
  | nil => rfl
  | cons hd tl ih =>
      simp only [List.map_cons, List.mem_cons] at h
      push_neg at h
      have hne : hd.1 ≠ k := fun he => h.1 he.symm
      simp only [dictGet, if_neg hne]
      exact ih h.2

theorem mem_of_dictGet_eq_some {α β : Type} [DecidableEq α] (d : List (α × β))
    (k : α) (v : β) (h : dictGet d k = some v) : k ∈ d.map Prod.fst := by
  induction d with
  | nil => simp [dictGet] at h
  | cons hd tl ih =>
      simp only [dictGet] at h
      by_cases he : hd.1 = k
      · simp [he]
      · rw [if_neg he] at h
        simp [ih h]

/- ------------------------------------------------------------------ -/
/- Claim theorems: retriever geo-NMS (C8). -/
/- ------------------------------------------------------------------ -/

/- Two search rows at the same (lat, lon) — haversine distance zero, hence
within any positive suppression radius of each other — tagged with their
rank. -/
def nmsProbeRows : List (ℚ × ℚ × Nat) := [(31, 34, 1), (31, 34, 2)]

/-- C8 counterexample: the `/search` handler with `apply_geo_nms` set keeps
both of two rows that lie at the same coordinates (distance 0, inside any
positive `geo_nms_radius_m`), so the lower-ranked one is not suppressed as
the claim states. -/
theorem geo_nms_counterexample :
    searchPostProcess true (some 50) nmsProbeRows = nmsProbeRows ∧
    ((31 : ℚ), (34 : ℚ), (2 : Nat)) ∈ searchPostProcess true (some 50) nmsProbeRows := by
  decide

/-- C8 (amended): `_geo_nms_stub` is a placeholder, so the `/search` handler
returns the result rows unchanged whether or not `apply_geo_nms` is set; no
greedy haversine non-maximum suppression is performed and no row is ever
dropped. -/
theorem geo_nms_stub_returns_rows_unchanged {α : Type} (applyGeoNms : Bool)
    (radiusM : Option ℚ) (rows : List α) :
    searchPostProcess applyGeoNms radiusM rows = rows := by
  cases applyGeoNms <;> rfl

/- ------------------------------------------------------------------ -/
/- Claim theorems: empty-rows upsert (C5). -/
/- ------------------------------------------------------------------ -/

/-- C5 counterexample: the in-process adapter call `upsert_rows` with an
empty rows list returns 0, but it runs `get_or_create_table` before the
empty-rows check, so on a database without the table the set of tables
changes: the table is created. -/
theorem empty_upsert_creates_table_counterexample :
    (upsertRows [] "tiles_pe_core" []).1 = 0 ∧
    tableNames (upsertRows [] "tiles_pe_core" []).2 ≠ tableNames ([] : DBState) := by
  decide

/-- C5 (amended): an upsert with empty `rows` returns 0 in both layers; the
HTTP endpoint short-circuits before touching the adapter, leaving the table
set unchanged, while the adapter's `upsert_rows` first runs
`get_or_create_table`, so it leaves the database unchanged only when the
table already exists and otherwise creates the (empty) table. -/
theorem empty_upsert_amended (db : DBState) (name : String) :
    httpUpsert db name [] = (.ok 0, db) ∧
    (upsertRows db name []).1 = 0 ∧
    (upsertRows db name []).2 = getOrCreateTable db name ∧
    (name ∈ tableNames db → (upsertRows db name []).2 = db) ∧
    (name ∉ tableNames db → (upsertRows db name []).2 = db ++ [(name, [])]) := by
  refine ⟨rfl, rfl, rfl, fun h => ?_, fun h => ?_⟩
  · simp [upsertRows, getOrCreateTable, h]
  · simp [upsertRows, getOrCreateTable, h]

/-- C5 witness: the amended theorem evaluated on a one-table database. -/
theorem empty_upsert_amended_witness :
    ("tiles_pe_core" ∈ tableNames [("tiles_pe_core", ([] : List VRow))]) ∧
    (upsertRows [("tiles_pe_core", [])] "tiles_pe_core" []).2 =
      [("tiles_pe_core", [])] := by
  refine ⟨by decide, ?_⟩
  exact (empty_upsert_amended [("tiles_pe_core", [])] "tiles_pe_core").2.2.2.1
    (by decide)

/- ------------------------------------------------------------------ -/
/- Claim theorems: search against a nonexistent table (C7). -/
/- ------------------------------------------------------------------ -/

def predAll : VRow → Bool := fun _ => true

def predNone : VRow → Bool := fun _ => false

def vrowProbe : VRow := { imageId := 7, embedding := [1] }

def dbProbe : DBState := [("tiles_pe_core", [vrowProbe])]

/-- C7 counterexample: a vector search against a nonexistent table on the
vectordb HTTP surface returns HTTP 200 with an empty result list, not the
404 stated by the claim. -/
theorem search_missing_table_counterexample :
    httpSearch dbProbe "no_such_table" predAll 5 = .ok [] ∧
    httpSearch dbProbe "no_such_table" predAll 5 ≠
      .error 404 "Table not found: no_such_table" := by
  decide

/-- C7 (amended): a search against a nonexistent table returns an empty
result list with HTTP 200 on the vectordb HTTP surface (the in-process
adapter call fails instead, since `open_table` raises); the 404 guard
applies to the info and delete endpoints; and a search on an existing table
with no matches returns an empty list, not an error. -/
theorem search_missing_table_amended (db : DBState) (name : String)
    (pred : VRow → Bool) (k : Nat) :
    (name ∉ tableNames db →
      httpSearch db name pred k = .ok [] ∧
      adapterVectorSearch db name pred k = none ∧
      httpTableInfo db name = .error 404 ("Table not found: " ++ name) ∧
      (httpDeleteWhere db name pred).1 = .error 404 ("Table not found: " ++ name)) ∧
    (∀ tbl, dictGet db name = some tbl → tbl.filter pred = [] →
      httpSearch db name pred k = .ok []) := by
  constructor
  · intro h
    have hnone : dictGet db name = none := dictGet_eq_none_of_not_mem db name h
    refine ⟨?_, ?_, ?_, ?_⟩
    · simp only [httpSearch, if_pos h]
    · simp [adapterVectorSearch, hnone]
    · simp only [httpTableInfo, if_pos h]
    · simp only [httpDeleteWhere, if_pos h]
  · intro tbl hget hfilt
    have hmem : name ∈ tableNames db := mem_of_dictGet_eq_some db name tbl hget
    simp only [httpSearch, if_neg (not_not_intro hmem)]
    simp [adapterVectorSearch, hget, hfilt]

/-- C7 witness: the amended theorem evaluated on a concrete database, both
for a missing table and for an existing table with no matching rows. -/
theorem search_missing_table_amended_witness :
    ("no_such_table" ∉ tableNames dbProbe) ∧
    httpSearch dbProbe "no_such_table" predAll 5 = .ok [] ∧
    httpTableInfo dbProbe "no_such_table" =
      .error 404 "Table not found: no_such_table" ∧
    httpSearch dbProbe "tiles_pe_core" predNone 5 = .ok [] := by
  have h1 := search_missing_table_amended dbProbe "no_such_table" predAll 5
  have h2 := search_missing_table_amended dbProbe "tiles_pe_core" predNone 5
  have hm : "no_such_table" ∉ tableNames dbProbe := by decide
  refine ⟨hm, (h1.1 hm).1, (h1.1 hm).2.2.1, ?_⟩
  exact h2.2 [vrowProbe] (by decide) (by decide)

/- ------------------------------------------------------------------ -/
/- Claim theorems: registry status transitions (C4). -/
/- ------------------------------------------------------------------ -/

/- A tile already in the terminal FAILED state. -/
def failedRow : TRow := { tileId := "t1", status := some "failed" }

/-- C4 counterexample: `update_status` performs no transition validation.
Requesting the illegal transition FAILED → INDEXED (FAILED is terminal in
the §4.1 state machine) does not return any `InvalidState` error; it
changes the stored row and returns the updated tile. -/
theorem illegal_transition_counterexample :
    (updateStatusDb [failedRow] "t1" .indexed).2 ≠ [failedRow] ∧
    ((updateStatusDb [failedRow] "t1" .indexed).1.map TileResponse.status) =
      some TileStatus.indexed := by
  decide

theorem statusFromRow_value (st : TileStatus) :
    statusFromRow (some st.value) = st := by
  cases st <;> decide

theorem setRowStatus_tileId (tileId : String) (st : TileStatus) (r : TRow) :
    (setRowStatus tileId st r).tileId = r.tileId := by
  unfold setRowStatus
  split <;> rfl

theorem fetchRow_map_setRowStatus (d : TilesDB) (tileId : String)
    (st : TileStatus) :
    fetchRow (d.map (setRowStatus tileId st)) tileId =
      (fetchRow d tileId).map (setRowStatus tileId st) := by
  unfold fetchRow
  rw [List.find?_map]
  have hfn : ((fun r : TRow => decide (r.tileId = tileId)) ∘ setRowStatus tileId st)
      = fun r : TRow => decide (r.tileId = tileId) := by
    funext r
    simp [Function.comp, setRowStatus_tileId]
  rw [hfn]

theorem setRowStatus_idem (tileId : String) (st : TileStatus) (r : TRow) :
    setRowStatus tileId st (setRowStatus tileId st r) = setRowStatus tileId st r := by
  unfold setRowStatus
  by_cases h : r.tileId = tileId <;> simp [h]

/-- C4 (amended): `update_status` applies any requested status
unconditionally — there is no transition validation and no `InvalidState`
result anywhere: whenever the tile exists, the call stores the new status
value and returns the updated tile, and repeating the same transition is a
no-op (the second call returns the same response and leaves the database in
the same state). -/
theorem update_status_unvalidated (db : TilesDB) (tileId : String)
    (st : TileStatus) (row : TRow) (h : fetchRow db tileId = some row) :
    (updateStatusDb db tileId st).1 =
      some (rowToResponse (setRowStatus tileId st row)) ∧
    (rowToResponse (setRowStatus tileId st row)).status = st ∧
    updateStatusDb (updateStatusDb db tileId st).2 tileId st =
      updateStatusDb db tileId st := by
  have hpred : row.tileId = tileId := by
    have := List.find?_some h
    simpa using this
  have hmap : ∀ d : TilesDB,
      fetchRow (d.map (setRowStatus tileId st)) tileId =
        (fetchRow d tileId).map (setRowStatus tileId st) :=
    fun d => fetchRow_map_setRowStatus d tileId st
  refine ⟨?_, ?_, ?_⟩
  · unfold updateStatusDb
    rw [h]
    simp [hmap, h]
  · have : setRowStatus tileId st row = { row with status := some st.value } := by
      unfold setRowStatus
      rw [if_pos hpred]
    rw [this]
    simp [rowToResponse, statusFromRow_value]
  · have hdb2 : (db.map (setRowStatus tileId st)).map (setRowStatus tileId st) =
        db.map (setRowStatus tileId st) := by
      rw [List.map_map]
      congr 1
      funext r
      exact setRowStatus_idem tileId st r
    have hfetch1 : fetchRow (db.map (setRowStatus tileId st)) tileId =
        some (setRowStatus tileId st row) := by
      rw [hmap, h]
      rfl
    unfold updateStatusDb
    rw [h, hfetch1]
    simp only [hmap, hdb2]

/-- C4 witness: the amended theorem evaluated on a one-row database holding
a FAILED tile, re-marked IN_PROCESS. -/
theorem update_status_unvalidated_witness :
    fetchRow [failedRow] "t1" = some failedRow ∧
    ((updateStatusDb [failedRow] "t1" .inProcess).1 =
      some (rowToResponse (setRowStatus "t1" .inProcess failedRow)) ∧
    (rowToResponse (setRowStatus "t1" .inProcess failedRow)).status = .inProcess ∧
    updateStatusDb (updateStatusDb [failedRow] "t1" .inProcess).2 "t1" .inProcess =
      updateStatusDb [failedRow] "t1" .inProcess) := by
  refine ⟨by decide, ?_⟩
  exact update_status_unvalidated [failedRow] "t1" .inProcess failedRow (by decide)

/- ------------------------------------------------------------------ -/
/- Claim theorems: corrupted status read back as ready (C10). -/
/- ------------------------------------------------------------------ -/

/-- C10: every read path of the registry (`get_tile`, `list_tiles`,
`create_tile`) builds its responses through `_row_to_response`, and the
status branch of `_row_to_response` maps a NULL, empty or unparseable
stored status to READY_FOR_INDEXING, so the read surface never reports an
unknown status and a corrupted row re-enters the pipeline as ready. -/
theorem corrupted_status_reads_ready :
    statusFromRow none = TileStatus.readyForIndexing ∧
    statusFromRow (some "") = TileStatus.readyForIndexing ∧
    (∀ s : String, parseTileStatus s = none →
      statusFromRow (some s) = TileStatus.readyForIndexing) ∧
    (∀ r : TRow, (rowToResponse r).status = statusFromRow r.status) ∧
    (∀ (db : TilesDB) (tileId : String) (resp : TileResponse),
      getTile db tileId = some resp → ∃ row ∈ db, resp = rowToResponse row) ∧
    (∀ (db : TilesDB) (f : Option TileStatus) (lim off : Nat)
        (resp : TileResponse),
      resp ∈ (listTiles db f lim off).1 → ∃ row ∈ db, resp = rowToResponse row) ∧
    (∀ (db : TilesDB) (data : TileCreate) (resp : TileResponse),
      (createTile db data).1 = some resp →
      ∃ row, fetchRow (createTile db data).2 data.tileId = some row ∧
        resp = rowToResponse row) := by
  refine ⟨rfl, rfl, ?_, ?_, ?_, ?_, ?_⟩
  · intro s hs
    unfold statusFromRow
    by_cases he : s = ""
    · simp [he]
    · simp [he, hs]
  · intro r
    rfl
  · intro db tileId resp hresp
    unfold getTile at hresp
    match hrow : fetchRow db tileId with
    | none => rw [hrow] at hresp; simp at hresp
    | some row =>
        rw [hrow] at hresp
        simp only [Option.map_some', Option.some_inj] at hresp
        exact ⟨row, List.mem_of_find?_eq_some hrow, hresp.symm⟩
  · intro db f lim off resp hresp
    simp only [listTiles, List.mem_map] at hresp
    obtain ⟨row, hrowmem, hresp⟩ := hresp
    have h1 : row ∈ (listMatching db f).insertionSort
        (fun a b => a.tileId ≤ b.tileId) :=
      List.mem_of_mem_drop (List.mem_of_mem_take hrowmem)
    have h2 : row ∈ listMatching db f :=
      (List.perm_insertionSort (fun a b => a.tileId ≤ b.tileId)
        (listMatching db f)).mem_iff.mp h1
    have h3 : row ∈ db := by
      cases f with
      | none => simpa [listMatching] using h2
      | some st =>
          have h4 : row ∈ db.filter (fun r => r.status = some st.value) := by
            simpa [listMatching] using h2
          exact List.mem_of_mem_filter h4
    exact ⟨row, h3, hresp.symm⟩
  · intro db data resp hresp
    unfold createTile at hresp ⊢
    by_cases he : data.tileId = ""
    · rw [if_pos he] at hresp
      simp at hresp
    · rw [if_neg he] at hresp
      rw [if_neg he]
      simp only [Option.map_eq_some'] at hresp
      obtain ⟨row, hrow, heq⟩ := hresp
      exact ⟨row, hrow, heq.symm⟩

/- A row whose stored status is not a valid TileStatus value. -/
def corruptRow : TRow := { tileId := "t9", status := some "bogus" }

/-- C10 witness: the fallback evaluated on a concretely corrupted row, via
`get_tile`. -/
theorem corrupted_status_reads_ready_witness :
    parseTileStatus "bogus" = none ∧
    statusFromRow (some "bogus") = TileStatus.readyForIndexing ∧
    getTile [corruptRow] "t9" = some (rowToResponse corruptRow) ∧
    (∃ row ∈ [corruptRow], rowToResponse corruptRow = rowToResponse row) ∧
    (rowToResponse corruptRow).status = TileStatus.readyForIndexing := by
  have h := corrupted_status_reads_ready
  refine ⟨by decide, h.2.2.1 "bogus" (by decide), by decide, ?_, by decide⟩
  exact h.2.2.2.2.1 [corruptRow] "t9" (rowToResponse corruptRow) (by decide)

/- ------------------------------------------------------------------ -/
/- Python string primitives used by the scheduler's routing config
(victor/scheduler.py).  Implemented over the character list of the string
so that concrete routing tables evaluate inside proofs. -/
/- ------------------------------------------------------------------ -/

def isPySpace (c : Char) : Bool :=
  c = ' ' ∨ c = '\t' ∨ c = '\n' ∨ c = '\r' ∨ c = '\x0b' ∨ c = '\x0c'

/- Python `s.strip()`. -/
def pyStrip (s : String) : String :=
  ⟨((s.data.dropWhile isPySpace).reverse.dropWhile isPySpace).reverse⟩

/- Python `c in s`. -/
def strHasChar (c : Char) (s : String) : Bool :=
  s.data.any (fun d => d = c)

/- Python `s.split(c, 1)` when `c` occurs in `s`. -/
def pySplitOnce (c : Char) (s : String) : String × String :=
  (⟨s.data.takeWhile (fun d => d ≠ c)⟩,
   ⟨(s.data.dropWhile (fun d => d ≠ c)).drop 1⟩)

def splitCharAux (c : Char) : List Char → List Char → List String
  | [], acc => [⟨acc.reverse⟩]
  | d :: rest, acc =>
      if d = c then ⟨acc.reverse⟩ :: splitCharAux c rest []
      else splitCharAux c rest (d :: acc)

/- Python `s.split(c)` (note `"".split(c) == [""]`). -/
def pySplitAll (c : Char) (s : String) : List String :=
  splitCharAux c s.data []

/- ------------------------------------------------------------------ -/
/- Scheduler queue routing (victor/scheduler.py): `EmbedderQueues`,
`get_queue` and `_parse_embedder_queues`. -/
/- ------------------------------------------------------------------ -/

def defaultQueueName : String := "tiles.to_index"

structure EmbedderQueues where
  defaultQueue : String
  byBackend : List (String × String)
  byBackendModel : List ((String × String) × String)
  deriving DecidableEq, Repr

/- The tail of `get_queue` after the backend:model attempt: `queue =
self.by_backend.get(embedder_model); if queue: return queue; return
default` (an empty-string queue is falsy in Python). -/
def getQueueBackendFallback (q : EmbedderQueues) (s : String) : String :=
  match dictGet q.byBackend s with
  | some qu => if qu = "" then q.defaultQueue else qu
  | none => q.defaultQueue

/- The `backend:model` attempt of `get_queue`: only tried when the trimmed
model string carries a colon. -/
def getQueueModelAttempt (q : EmbedderQueues) (s : String) : Option String :=
  if strHasChar ':' s then
    dictGet q.byBackendModel
      (pyStrip (pySplitOnce ':' s).1, pyStrip (pySplitOnce ':' s).2)
  else none

def getQueueSome (q : EmbedderQueues) (s0 : String) : String :=
  if s0 = "" then q.defaultQueue
  else
    if pyStrip s0 = "" then q.defaultQueue
    else
      match getQueueModelAttempt q (pyStrip s0) with
      | some qu =>
          if qu = "" then getQueueBackendFallback q (pyStrip s0) else qu
      | none => getQueueBackendFallback q (pyStrip s0)

/- `EmbedderQueues.get_queue`: None/empty → default; a `backend:model`
entry is tried first for a colon-bearing model; then the backend map is
probed with the whole trimmed string; then the default. -/
def getQueue : EmbedderQueues → Option String → String
  | q, none => q.defaultQueue
  | q, some s0 => getQueueSome q s0

structure ParseState where
  byBackend : List (String × String)
  byBackendModel : List ((String × String) × String)
  defaultQueue : String
  deriving DecidableEq, Repr

/- One iteration of the mapping loop in `_parse_embedder_queues`. -/
def parseStep (st : ParseState) (mapping0 : String) : ParseState :=
  let mapping := pyStrip mapping0
  if mapping = "" then st
  else if ¬ strHasChar '=' mapping then st
  else
    let bq := pySplitOnce '=' mapping
    let backendSpec := pyStrip bq.1
    let queue := pyStrip bq.2
    if backendSpec = "" ∨ queue = "" then st
    else if strHasChar ':' backendSpec then
      let bm := pySplitOnce ':' backendSpec
      let backend := pyStrip bm.1
      let model := pyStrip bm.2
      if backend = "" ∨ model = "" then st
      else { st with byBackendModel := dictSet st.byBackendModel (backend, model) queue }
    else
      let byB := dictSet st.byBackend backendSpec queue
      { st with
          byBackend := byB
          defaultQueue := if byB.length = 1 then queue else st.defaultQueue }

def routingInitState : ParseState :=
  { byBackend := [], byBackendModel := [], defaultQueue := defaultQueueName }

/- The final check of `_parse_embedder_queues`: the `ValueError` raised when
no valid mapping was found is modelled as `none`. -/
def parseFinish (st : ParseState) : Option EmbedderQueues :=
  if st.byBackend.isEmpty ∧ st.byBackendModel.isEmpty then none
  else some ⟨st.defaultQueue, st.byBackend, st.byBackendModel⟩

def parseEmbedderQueues (raw : String) : Option EmbedderQueues :=
  parseFinish ((pySplitAll ',' raw).foldl parseStep routingInitState)

/- ------------------------------------------------------------------ -/
/- Claim theorems: scheduler queue routing (C3). -/
/- ------------------------------------------------------------------ -/

theorem pair_mem_of_dictGet_eq_some {α β : Type} [DecidableEq α]
    (d : List (α × β)) (k : α) (v : β) (h : dictGet d k = some v) :
    (k, v) ∈ d := by
  induction d with
  | nil => simp [dictGet] at h
  | cons hd tl ih =>
      simp only [dictGet] at h
      by_cases he : hd.1 = k
      · rw [if_pos he] at h
        have hv : hd.2 = v := by
          simpa using h
        have : hd = (k, v) := by
          rw [← he, ← hv]
        simp [this]
      · rw [if_neg he] at h
        simp [ih h]

theorem dictGet_dictSet {α β : Type} [DecidableEq α] (d : List (α × β))
    (k k' : α) (v : β) :
    dictGet (dictSet d k v) k' = if k = k' then some v else dictGet d k' := by
  induction d with
  | nil => simp [dictGet, dictSet]
  | cons hd tl ih =>
      simp only [dictSet]
      by_cases he : hd.1 = k
      · rw [if_pos he]
        simp only [dictGet]
        by_cases hk : k = k'
        · rw [if_pos (he.trans hk), if_pos hk]
        · rw [if_neg (fun h => hk (he.symm.trans h)), if_neg hk,
            if_neg (fun h => hk (he.symm.trans h))]
      · rw [if_neg he]
        simp only [dictGet, ih]
        by_cases he' : hd.1 = k'
        · rw [if_pos he', if_neg (fun hkk => he (he'.trans hkk.symm)), if_pos he']
        · rw [if_neg he', if_neg he']

/- Invariant of `_parse_embedder_queues`: backend keys never contain a
colon and configured queues are never the empty string. -/
def routingInv (st : ParseState) : Prop :=
  (∀ p ∈ st.byBackend, strHasChar ':' p.1 = false ∧ p.2 ≠ "") ∧
  (∀ p ∈ st.byBackendModel, p.2 ≠ "")

theorem mem_dictSet {α β : Type} [DecidableEq α] (d : List (α × β))
    (k : α) (v : β) : ∀ p ∈ dictSet d k v, p ∈ d ∨ p = (k, v) := by
  induction d with
  | nil => simp [dictSet]
  | cons hd tl ih =>
      intro p hp
      simp only [dictSet] at hp
      by_cases he : hd.1 = k
      · rw [if_pos he] at hp
        rcases List.mem_cons.mp hp with h1 | h1
        · right
          rw [h1, he]
        · left
          exact List.mem_cons_of_mem _ h1
      · rw [if_neg he] at hp
        rcases List.mem_cons.mp hp with h1 | h1
        · left
          exact h1 ▸ List.mem_cons_self _ _
        · rcases ih p h1 with h2 | h2
          · left
            exact List.mem_cons_of_mem _ h2
          · right
            exact h2

theorem parseStep_inv (st : ParseState) (s : String) (h : routingInv st) :
    routingInv (parseStep st s) := by
  simp only [parseStep]
  split
  · exact h
  split
  · exact h
  split
  · exact h
  next hnot =>
    push_neg at hnot
    split
    · split
      · exact h
      next hne =>
        refine ⟨h.1, ?_⟩
        intro p hp
        rcases mem_dictSet _ _ _ p hp with h1 | h1
        · exact h.2 p h1
        · rw [h1]
          exact hnot.2
    next hcolon =>
      refine ⟨?_, h.2⟩
      intro p hp
      rcases mem_dictSet _ _ _ p hp with h1 | h1
      · exact h.1 p h1
      · rw [h1]
        exact ⟨by simpa using hcolon, hnot.2⟩

theorem foldl_parseStep_inv (l : List String) (st : ParseState)
    (h : routingInv st) : routingInv (l.foldl parseStep st) := by
  induction l generalizing st with
  | nil => exact h
  | cons hd tl ih => exact ih _ (parseStep_inv st hd h)

theorem parseEmbedderQueues_inv (raw : String) (q : EmbedderQueues)
    (hq : parseEmbedderQueues raw = some q) :
    (∀ p ∈ q.byBackend, strHasChar ':' p.1 = false ∧ p.2 ≠ "") ∧
    (∀ p ∈ q.byBackendModel, p.2 ≠ "") := by
  have hinv := foldl_parseStep_inv (pySplitAll ',' raw) routingInitState
    ⟨by simp [routingInitState], by simp [routingInitState]⟩
  unfold parseEmbedderQueues at hq
  unfold parseFinish at hq
  split at hq
  · simp at hq
  · have hqeq := Option.some_inj.mp hq
    rw [← hqeq]
    exact hinv

theorem dictGet_eq_none_of_colon {β : Type} (d : List (String × β))
    (k : String) (hkeys : ∀ p ∈ d, strHasChar ':' p.1 = false)
    (hk : strHasChar ':' k = true) : dictGet d k = none := by
  induction d with
  | nil => rfl
  | cons hd tl ih =>
      simp only [dictGet]
      have hne : hd.1 ≠ k := by
        intro he
        have h1 := hkeys hd (List.mem_cons_self _ _)
        rw [he, hk] at h1
        simp at h1
      rw [if_neg hne]
      exact ih (fun p hp => hkeys p (List.mem_cons_of_mem _ hp))

/-- C3 counterexample: with routing config "pe_core=q1,clip=q3" a tile with
embedder_model "clip:ViT-L" has no exact backend:model entry; the claim says
the backend entry clip=q3 is its fallback, but `get_queue` probes the
backend map with the whole string "clip:ViT-L" (which can never match a
backend key), so the tile is routed to the default queue "q1", not "q3". -/
theorem routing_backend_fallback_counterexample :
    (parseEmbedderQueues "pe_core=q1,clip=q3").map
        (fun q => (dictGet q.byBackend "clip", getQueue q (some "clip:ViT-L")))
      = some (some "q3", "q1") ∧ ("q1" : String) ≠ "q3" := by
  constructor
  · decide
  · decide

/-- C3 (amended): for a parsed routing config, an exact `backend:model`
entry wins for a colon-bearing embedder_model; when the exact entry is
missing, a colon-bearing model always falls through to the default queue
(the backend map is probed with the full string, which never matches since
backend keys are colon-free); a colon-free embedder_model uses its backend
entry when present and the default queue otherwise; a missing or
blank-after-strip embedder_model uses the default queue; blank config
entries are ignored by the parser and duplicate entries are last-wins. -/
theorem routing_characterization (raw : String) (q : EmbedderQueues)
    (hq : parseEmbedderQueues raw = some q) :
    getQueue q none = q.defaultQueue ∧
    (∀ s, pyStrip s = "" → getQueue q (some s) = q.defaultQueue) ∧
    (∀ s, strHasChar ':' (pyStrip s) = true →
      (∀ qu, dictGet q.byBackendModel
          (pyStrip (pySplitOnce ':' (pyStrip s)).1,
           pyStrip (pySplitOnce ':' (pyStrip s)).2) = some qu →
        getQueue q (some s) = qu) ∧
      (dictGet q.byBackendModel
          (pyStrip (pySplitOnce ':' (pyStrip s)).1,
           pyStrip (pySplitOnce ':' (pyStrip s)).2) = none →
        getQueue q (some s) = q.defaultQueue)) ∧
    (∀ s, pyStrip s ≠ "" → strHasChar ':' (pyStrip s) = false →
      (∀ qu, dictGet q.byBackend (pyStrip s) = some qu →
        getQueue q (some s) = qu) ∧
      (dictGet q.byBackend (pyStrip s) = none →
        getQueue q (some s) = q.defaultQueue)) ∧
    (∀ (st : ParseState) (s : String), pyStrip s = "" → parseStep st s = st) ∧
    (∀ (d : List (String × String)) (k k' v : String),
      dictGet (dictSet d k v) k' = if k = k' then some v else dictGet d k') := by
  have hinv := parseEmbedderQueues_inv raw q hq
  refine ⟨rfl, ?_, ?_, ?_, ?_, ?_⟩
  · intro s hs
    simp only [getQueue, getQueueSome]
    by_cases h0 : s = ""
    · rw [if_pos h0]
    · rw [if_neg h0, if_pos hs]
  · intro s hcolon
    have h0 : s ≠ "" := by
      intro he
      rw [he] at hcolon
      exact absurd hcolon (by decide)
    have hs : pyStrip s ≠ "" := by
      intro he
      rw [he] at hcolon
      exact absurd hcolon (by decide)
    have hattempt : getQueueModelAttempt q (pyStrip s) =
        dictGet q.byBackendModel
          (pyStrip (pySplitOnce ':' (pyStrip s)).1,
           pyStrip (pySplitOnce ':' (pyStrip s)).2) := by
      unfold getQueueModelAttempt
      rw [if_pos hcolon]
    constructor
    · intro qu hqu
      have hqune : qu ≠ "" := hinv.2 _ (pair_mem_of_dictGet_eq_some _ _ _ hqu)
      simp only [getQueue, getQueueSome]
      rw [if_neg h0, if_neg hs, hattempt, hqu]
      simp [hqune]
    · intro hnone
      simp only [getQueue, getQueueSome]
      rw [if_neg h0, if_neg hs, hattempt, hnone]
      simp only []
      unfold getQueueBackendFallback
      rw [dictGet_eq_none_of_colon q.byBackend (pyStrip s)
        (fun p hp => (hinv.1 p hp).1) hcolon]
  · intro s hs hcolon
    have h0 : s ≠ "" := by
      intro he
      rw [he] at hs
      exact hs rfl
    have hattempt : getQueueModelAttempt q (pyStrip s) = none := by
      unfold getQueueModelAttempt
      rw [if_neg (by simp [hcolon])]
    constructor
    · intro qu hqu
      have hqune : qu ≠ "" := (hinv.1 _ (pair_mem_of_dictGet_eq_some _ _ _ hqu)).2
      simp only [getQueue, getQueueSome]
      rw [if_neg h0, if_neg hs, hattempt]
      simp only []
      unfold getQueueBackendFallback
      rw [hqu]
      simp [hqune]
    · intro hnone
      simp only [getQueue, getQueueSome]
      rw [if_neg h0, if_neg hs, hattempt]
      simp only []
      unfold getQueueBackendFallback
      rw [hnone]
  · intro st s hs
    simp only [parseStep]
    rw [hs]
    simp
  · intro d k k' v
    exact dictGet_dictSet d k k' v

/- The parsed form of the routing config of spec scenario 4. -/
def routingCfgW : EmbedderQueues :=
  { defaultQueue := "q1"
    byBackend := [("pe_core", "q1")]
    byBackendModel := [(("clip", "ViT-B-32"), "q2")] }

/-- C3 witness: the characterization applied to the concrete config
"pe_core=q1,clip:ViT-B-32=q2": the exact entry routes clip:ViT-B-32 to q2,
pe_core routes by its backend entry to q1, and an unmatched siglip2 routes
to the default q1. -/
theorem routing_characterization_witness :
    parseEmbedderQueues "pe_core=q1,clip:ViT-B-32=q2" = some routingCfgW ∧
    getQueue routingCfgW (some "clip:ViT-B-32") = "q2" ∧
    getQueue routingCfgW (some "pe_core") = "q1" ∧
    getQueue routingCfgW (some "siglip2") = routingCfgW.defaultQueue ∧
    routingCfgW.defaultQueue = "q1" := by
  have h := routing_characterization "pe_core=q1,clip:ViT-B-32=q2" routingCfgW
    (by decide)
  refine ⟨by decide, ?_, ?_, ?_, by decide⟩
  · exact (h.2.2.1 "clip:ViT-B-32" (by decide)).1 "q2" (by decide)
  · exact (h.2.2.2.1 "pe_core" (by decide) (by decide)).1 "q1" (by decide)
  · exact (h.2.2.2.1 "siglip2" (by decide) (by decide)).2 (by decide)

/- ------------------------------------------------------------------ -/
/- Victor scheduler tile processing (victor/scheduler.py): per-tile status
update, publish, failure isolation.  The tilesdb client and the message bus
are external HTTP/AMQP effects; an environment of oracles fixes which calls
raise, and the scheduler's observable actions are collected as an event
trace. -/
/- ------------------------------------------------------------------ -/

structure STile where
  tileId : String
  embedderModel : Option String
  deriving DecidableEq, Repr

structure SchedEnv where
  updateOk : String → TileStatus → Bool
  publishOk : String → String → Bool

inductive SEv where
  | updStatus (tileId : String) (st : TileStatus)
  | publish (queue : String) (tileId : String)
  | markFailed (tileId : String)
  deriving DecidableEq, Repr

/- `_process_single_tile`: route, transition to IN_PROCESS, then publish.
Returns the effects that took place and whether the tile completed without
raising; a raising call contributes no effect event. -/
def processSingleTile (env : SchedEnv) (qcfg : EmbedderQueues) (tile : STile) :
    List SEv × Bool :=
  let queue := getQueue qcfg tile.embedderModel
  if env.updateOk tile.tileId .inProcess then
    if env.publishOk queue tile.tileId then
      ([SEv.updStatus tile.tileId .inProcess, SEv.publish queue tile.tileId], true)
    else ([SEv.updStatus tile.tileId .inProcess], false)
  else ([], false)

/- The full per-tile trace as seen from `_process_tiles`: on any exception
the tile is best-effort marked FAILED (`_mark_tile_failed` swallows its own
errors) and the loop continues. -/
def tileTrace (env : SchedEnv) (qcfg : EmbedderQueues) (tile : STile) :
    List SEv :=
  let r := processSingleTile env qcfg tile
  if r.2 then r.1 else r.1 ++ [SEv.markFailed tile.tileId]

/- `_process_tiles`: fold over the batch, isolating per-tile failures and
counting the successfully published tiles. -/
def processTiles (env : SchedEnv) (qcfg : EmbedderQueues)
    (tiles : List STile) : List SEv × Nat :=
  tiles.foldl
    (fun acc tile =>
      let r := processSingleTile env qcfg tile
      if r.2 then (acc.1 ++ r.1, acc.2 + 1)
      else (acc.1 ++ r.1 ++ [SEv.markFailed tile.tileId], acc.2))
    ([], 0)

theorem processTiles_fst_append (env : SchedEnv) (qcfg : EmbedderQueues)
    (tiles : List STile) (acc : List SEv) (n : Nat) :
    (tiles.foldl
      (fun acc tile =>
        let r := processSingleTile env qcfg tile
        if r.2 then (acc.1 ++ r.1, acc.2 + 1)
        else (acc.1 ++ r.1 ++ [SEv.markFailed tile.tileId], acc.2))
      (acc, n)).1 = acc ++ (tiles.map (tileTrace env qcfg)).flatten := by
  induction tiles generalizing acc n with
  | nil => simp
  | cons hd tl ih =>
      simp only [List.foldl_cons, List.map_cons, List.flatten_cons]
      by_cases hr : (processSingleTile env qcfg hd).2
      · rw [if_pos hr]
        rw [ih]
        simp [tileTrace, hr, List.append_assoc]
      · rw [if_neg hr]
        rw [ih]
        simp [tileTrace, hr, List.append_assoc]

theorem processTiles_events (env : SchedEnv) (qcfg : EmbedderQueues)
    (tiles : List STile) :
    (processTiles env qcfg tiles).1 = (tiles.map (tileTrace env qcfg)).flatten := by
  have h := processTiles_fst_append env qcfg tiles [] 0
  simpa [processTiles] using h

theorem markFailed_mem_tileTrace (env : SchedEnv) (qcfg : EmbedderQueues)
    (t : STile)
    (hfail : env.updateOk t.tileId .inProcess = false ∨
      env.publishOk (getQueue qcfg t.embedderModel) t.tileId = false) :
    SEv.markFailed t.tileId ∈ tileTrace env qcfg t := by
  by_cases hupd : env.updateOk t.tileId .inProcess = true
  · rcases hfail with h | h
    · rw [h] at hupd
      simp at hupd
    · simp [tileTrace, processSingleTile, hupd, h]
  · simp [tileTrace, processSingleTile, hupd]

theorem tileTrace_of_success (env : SchedEnv) (qcfg : EmbedderQueues)
    (t : STile) (hupd : env.updateOk t.tileId .inProcess = true)
    (hpub : env.publishOk (getQueue qcfg t.embedderModel) t.tileId = true) :
    tileTrace env qcfg t =
      [SEv.updStatus t.tileId .inProcess,
       SEv.publish (getQueue qcfg t.embedderModel) t.tileId] := by
  simp [tileTrace, processSingleTile, hupd, hpub]

/-- C2: in every scheduler batch, a tile is published only after its
IN_PROCESS registry update succeeded, and the successful update event
precedes the publish event in the trace; a tile whose update or publish
raises gets a best-effort FAILED mark; and every tile of the batch is
processed to completion — each one either publishes to its routed queue or
is marked FAILED, regardless of the failures of earlier tiles. -/
theorem scheduler_update_before_publish (env : SchedEnv)
    (qcfg : EmbedderQueues) (tiles : List STile) :
    (∀ qu tid, SEv.publish qu tid ∈ (processTiles env qcfg tiles).1 →
      env.updateOk tid .inProcess = true ∧
      ∃ l1 l2, (processTiles env qcfg tiles).1 =
          l1 ++ SEv.updStatus tid .inProcess :: l2 ∧
        SEv.publish qu tid ∈ l2) ∧
    (∀ t ∈ tiles,
      (env.updateOk t.tileId .inProcess = false ∨
       env.publishOk (getQueue qcfg t.embedderModel) t.tileId = false) →
      SEv.markFailed t.tileId ∈ (processTiles env qcfg tiles).1) ∧
    (∀ t ∈ tiles,
      SEv.publish (getQueue qcfg t.embedderModel) t.tileId ∈
          (processTiles env qcfg tiles).1 ∨
      SEv.markFailed t.tileId ∈ (processTiles env qcfg tiles).1) := by
  rw [processTiles_events]
  refine ⟨?_, ?_, ?_⟩
  · intro qu tid hmem
    rw [List.mem_flatten] at hmem
    obtain ⟨evl, hevl, hpub⟩ := hmem
    rw [List.mem_map] at hevl
    obtain ⟨t, htmem, htr⟩ := hevl
    by_cases hupd : env.updateOk t.tileId .inProcess = true
    · by_cases hpubok :
          env.publishOk (getQueue qcfg t.embedderModel) t.tileId = true
      · have htrace := tileTrace_of_success env qcfg t hupd hpubok
        rw [← htr, htrace] at hpub
        have hqt : qu = getQueue qcfg t.embedderModel ∧ tid = t.tileId := by
          rcases List.mem_cons.mp hpub with h | h
          · exact absurd h (by simp)
          · rcases List.mem_cons.mp h with h2 | h2
            · injection h2 with h3 h4
              exact ⟨h3, h4⟩
            · exact absurd h2 (by simp)
        obtain ⟨hq, ht⟩ := hqt
        subst hq
        subst ht
        obtain ⟨pre, post, hsplit⟩ := List.append_of_mem htmem
        refine ⟨hupd, (pre.map (tileTrace env qcfg)).flatten,
          SEv.publish (getQueue qcfg t.embedderModel) t.tileId ::
            (post.map (tileTrace env qcfg)).flatten, ?_, List.mem_cons_self _ _⟩
        rw [hsplit, List.map_append, List.flatten_append, List.map_cons,
          List.flatten_cons, htrace]
        simp
      · exfalso
        rw [← htr] at hpub
        simp [tileTrace, processSingleTile, hupd, hpubok] at hpub
    · exfalso
      rw [← htr] at hpub
      simp [tileTrace, processSingleTile, hupd] at hpub
  · intro t htmem hfail
    rw [List.mem_flatten]
    exact ⟨tileTrace env qcfg t,
      List.mem_map_of_mem (tileTrace env qcfg) htmem,
      markFailed_mem_tileTrace env qcfg t hfail⟩
  · intro t htmem
    by_cases hupd : env.updateOk t.tileId .inProcess = true
    · by_cases hpubok :
          env.publishOk (getQueue qcfg t.embedderModel) t.tileId = true
      · left
        rw [List.mem_flatten]
        refine ⟨tileTrace env qcfg t,
          List.mem_map_of_mem (tileTrace env qcfg) htmem, ?_⟩
        rw [tileTrace_of_success env qcfg t hupd hpubok]
        simp
      · right
        rw [List.mem_flatten]
        exact ⟨tileTrace env qcfg t,
          List.mem_map_of_mem (tileTrace env qcfg) htmem,
          markFailed_mem_tileTrace env qcfg t (Or.inr (by simpa using hpubok))⟩
    · right
      rw [List.mem_flatten]
      exact ⟨tileTrace env qcfg t,
        List.mem_map_of_mem (tileTrace env qcfg) htmem,
        markFailed_mem_tileTrace env qcfg t (Or.inl (by simpa using hupd))⟩

/- A concrete scheduler environment: registry updates fail for tile "bad",
publishing always succeeds. -/
def sEnvW : SchedEnv :=
  { updateOk := fun tid _ => decide (tid ≠ "bad")
    publishOk := fun _ _ => true }

def sTileGood : STile := { tileId := "good", embedderModel := some "pe_core" }

def sTileBad : STile := { tileId := "bad", embedderModel := none }

/-- C2 witness: the theorem applied to a concrete two-tile batch where the
first tile publishes (to the queue routed from its embedder model) and the
second tile's registry update fails, so it is marked FAILED while the batch
still completes. -/
theorem scheduler_update_before_publish_witness :
    SEv.publish "q1" "good" ∈
      (processTiles sEnvW routingCfgW [sTileGood, sTileBad]).1 ∧
    sEnvW.updateOk "good" .inProcess = true ∧
    sEnvW.updateOk "bad" .inProcess = false ∧
    SEv.markFailed "bad" ∈
      (processTiles sEnvW routingCfgW [sTileGood, sTileBad]).1 := by
  have h := scheduler_update_before_publish sEnvW routingCfgW
    [sTileGood, sTileBad]
  refine ⟨by decide, ?_, by decide, ?_⟩
  · exact (h.1 "q1" "good" (by decide)).1
  · exact h.2.1 sTileBad (by decide) (Or.inl (by decide))

/- ------------------------------------------------------------------ -/
/- Embedder worker batch processing (embedder_worker/worker.py).  The
message-bus, registry, tile-store, embedder and vectordb calls are external
effects; an oracle environment fixes which of them fail, and `process_batch`
is translated as a function from the batch to the trace of observable
effects (status updates, acks, upserts).  `IndexRequest` is restricted to
the fields that drive control flow. -/
/- ------------------------------------------------------------------ -/

structure WReq where
  imageId : Int
  tileId : Option String := none
  tileStore : Option String := none
  embedderBackend : Option String := none
  embedderModel : Option String := none
  deriving DecidableEq, Repr

structure WSettings where
  embedderBackend : String
  modelName : String
  tableName : String
  tileStore : String
  batchSize : Nat
  requireIndexStatusBeforeAck : Bool
  deriving Repr

/- `_tile_id_for_req`: `req.tile_id or f"tile:{req.image_id}"`. -/
def tileIdForReq (req : WReq) : String :=
  pyOrStr req.tileId ("tile:" ++ toString req.imageId)

def pyLower (s : String) : String :=
  ⟨s.data.map Char.toLower⟩

/- `_sanitize_token`. -/
def sanitizeToken (s : String) : String :=
  ⟨s.data.map (fun c => if c.isAlphanum ∨ c = '-' ∨ c = '_' then c else '_')⟩

/- `_normalize_tile_store`: strip, lowercase, alias resolution. -/
def normalizeTileStore (value : String) : String :=
  let store := pyLower (pyStrip value)
  if store = "file" ∨ store = "files" ∨ store = "filesystem" then "local"
  else if store = "satellite" then "synthetic"
  else store

/- `_resolve_table_name`. -/
def resolveTableName (s : WSettings) (modelName : String) : String :=
  if pyStrip s.tableName ≠ "" then s.tableName
  else "tiles_" ++
    sanitizeToken ⟨(pyLower modelName).data.map (fun c => if c = '-' then '_' else c)⟩

/- `_resolve_embedder_backend`. -/
def resolveBackend (req : WReq) (s : WSettings) : String :=
  pyOrStr (some (pyStrip (req.embedderBackend.getD ""))) s.embedderBackend

/- `_resolve_embedder_model`. -/
def resolveModel (req : WReq) (s : WSettings) : String :=
  pyOrStr (some (pyStrip (req.embedderModel.getD ""))) s.modelName

/- The tile store selected for a request: `req.tile_store or s.tile_store`,
normalized. -/
def storeFor (s : WSettings) (req : WReq) : String :=
  normalizeTileStore (pyOrStr req.tileStore s.tileStore)

/- The guard at worker.py line 250: a per-request embedder override is
rejected when a fixed table name is configured. -/
def overrideConflict (s : WSettings) (req : WReq) : Bool :=
  pyStrip s.tableName ≠ "" ∧
    (resolveBackend req s ≠ s.embedderBackend ∨ resolveModel req s ≠ s.modelName)

structure WEnv where
  storeInitOk : String → Bool
  loadOk : Nat → Bool
  embedOk : String → String → Bool
  upsertOk : String → Bool
  statusUpdateOk : List String → String → Bool

inductive WEv where
  | status (tileIds : List String) (st : String)
  | ack (envId : Nat)
  | upsert (table : String) (count : Nat)
  | upsertFail (table : String)
  deriving DecidableEq, Repr

structure WItem where
  req : WReq
  envId : Nat
  backend : String
  model : String
  table : String
  deriving DecidableEq, Repr

/- The tile-store submission loop of `process_batch` (worker.py 207-229):
a request whose tile store fails to initialize is marked failed and acked;
the rest become load futures. -/
def phaseB1 (env : WEnv) (s : WSettings) :
    List (WReq × Nat) → List WEv × List (WReq × Nat)
  | [] => ([], [])
  | re :: rest =>
      let r := phaseB1 env s rest
      if env.storeInitOk (storeFor s re.1) then (r.1, re :: r.2)
      else
        (WEv.status [tileIdForReq re.1] "failed" :: WEv.ack re.2 :: r.1, r.2)

/- The future-collection loop (worker.py 233-268): a load failure or
timeout marks the tile failed and acks; so does an embedder override under
a fixed table name; survivors become items carrying their resolved
backend, model and table. -/
def phaseB2 (env : WEnv) (s : WSettings) :
    List (WReq × Nat) → List WEv × List WItem
  | [] => ([], [])
  | re :: rest =>
      let r := phaseB2 env s rest
      if ¬ env.loadOk re.2 then
        (WEv.status [tileIdForReq re.1] "failed" :: WEv.ack re.2 :: r.1, r.2)
      else if overrideConflict s re.1 then
        (WEv.status [tileIdForReq re.1] "failed" :: WEv.ack re.2 :: r.1, r.2)
      else
        (r.1,
         { req := re.1
           envId := re.2
           backend := resolveBackend re.1 s
           model := resolveModel re.1 s
           table := resolveTableName s (resolveModel re.1 s) } :: r.2)

/- The surviving items of a batch. -/
def survivors (env : WEnv) (s : WSettings) (batch : List (WReq × Nat)) :
    List WItem :=
  (phaseB2 env s (phaseB1 env s batch).2).2

/- The per-table upsert loop (worker.py 329-337): `return` on the first
failing upsert, so later tables are not attempted. -/
def upsertPhase (env : WEnv) :
    List (String × List WItem) → List WEv × Bool
  | [] => ([], true)
  | g :: rest =>
      if env.upsertOk g.1 then
        let r := upsertPhase env rest
        (WEv.upsert g.1 g.2.length :: r.1, r.2)
      else ([WEv.upsertFail g.1], false)

/- The post-upsert loop (worker.py 340-349): mark INDEXED and ack, holding
the acks back when the status write failed and
`require_index_status_before_ack` is set. -/
def ackPhase (env : WEnv) (s : WSettings) :
    List (String × List WItem) → List WEv
  | [] => []
  | g :: rest =>
      WEv.status (g.2.map fun it => tileIdForReq it.req) "indexed" ::
        ((if env.statusUpdateOk (g.2.map fun it => tileIdForReq it.req) "indexed"
              ∨ ¬ s.requireIndexStatusBeforeAck
          then g.2.map (fun it => WEv.ack it.envId) else []) ++
         ackPhase env s rest)

/- The events of the load pipeline: the batch-wide WAITING_FOR_EMBEDDING
update, then the failure events of the store and load phases. -/
def preTrace (env : WEnv) (s : WSettings) (batch : List (WReq × Nat)) :
    List WEv :=
  WEv.status (batch.map fun re => tileIdForReq re.1) "waiting for embedding" ::
    (phaseB1 env s batch).1 ++ (phaseB2 env s (phaseB1 env s batch).2).1

/- `rows_by_table` and its companions: the surviving items grouped by
destination table, in insertion order. -/
def tableGroups (env : WEnv) (s : WSettings) (batch : List (WReq × Nat)) :
    List (String × List WItem) :=
  groupByKey (fun it : WItem => it.table) (survivors env s batch)

/- The per-table WAITING_FOR_INDEX updates (worker.py 326-327). -/
def waitIndexEvents (env : WEnv) (s : WSettings) (batch : List (WReq × Nat)) :
    List WEv :=
  (tableGroups env s batch).map fun g =>
    WEv.status (g.2.map fun it => tileIdForReq it.req) "waiting for index"

/- `process_batch`: mark the whole batch WAITING_FOR_EMBEDDING, run the
load pipeline, group the survivors by (backend, model) for embedding (a
failing embed aborts the call), regroup by table, mark WAITING_FOR_INDEX,
upsert table by table (a failing upsert aborts the call), and only then
mark INDEXED and ack. -/
def processBatch (env : WEnv) (s : WSettings) (batch : List (WReq × Nat)) :
    List WEv :=
  if batch.isEmpty then []
  else if (survivors env s batch).isEmpty then preTrace env s batch
  else if ¬ (groupByKey (fun it : WItem => (it.backend, it.model))
      (survivors env s batch)).all (fun g => env.embedOk g.1.1 g.1.2) then
    preTrace env s batch
  else if (upsertPhase env (tableGroups env s batch)).2 then
    preTrace env s batch ++ waitIndexEvents env s batch ++
      (upsertPhase env (tableGroups env s batch)).1 ++
      ackPhase env s (tableGroups env s batch)
  else
    preTrace env s batch ++ waitIndexEvents env s batch ++
      (upsertPhase env (tableGroups env s batch)).1

/- One arrival in the consume loop (worker.py 358-393).  `decoded = none`
models `IndexRequest(**payload)` raising on a poison payload: the exception
reaches the outer handler, which clears the local batch and continues — no
ack, no FAILED mark, no processing of the other buffered envelopes.
`flushDue` stands for the time trigger `now - last_batch_ts >=
flush_interval_s`. -/
def consumeStep (env : WEnv) (s : WSettings) (batch : List (WReq × Nat))
    (decoded : Option WReq) (envId : Nat) (flushDue : Bool) :
    List (WReq × Nat) × List WEv :=
  match decoded with
  | none => ([], [])
  | some req =>
      let batch' := batch ++ [(req, envId)]
      if s.batchSize ≤ batch'.length ∨ flushDue then
        ([], processBatch env s batch')
      else (batch', [])

/- Structural lemmas about the worker phases. -/

theorem phaseB1_ack (env : WEnv) (s : WSettings) (l : List (WReq × Nat))
    (e : Nat) (h : WEv.ack e ∈ (phaseB1 env s l).1) :
    ∃ re ∈ l, re.2 = e ∧ env.storeInitOk (storeFor s re.1) = false := by
  induction l with
  | nil => simp [phaseB1] at h
  | cons hd tl ih =>
      simp only [phaseB1] at h
      by_cases hs : env.storeInitOk (storeFor s hd.1) = true
      · rw [if_pos hs] at h
        obtain ⟨re, hre, hprop⟩ := ih h
        exact ⟨re, List.mem_cons_of_mem _ hre, hprop⟩
      · rw [if_neg hs] at h
        rcases List.mem_cons.mp h with h1 | h1
        · exact absurd h1 (by simp)
        · rcases List.mem_cons.mp h1 with h2 | h2
          · injection h2 with h3
            exact ⟨hd, List.mem_cons_self _ _, h3.symm, by simpa using hs⟩
          · obtain ⟨re, hre, hprop⟩ := ih h2
            exact ⟨re, List.mem_cons_of_mem _ hre, hprop⟩

theorem phaseB1_survivor (env : WEnv) (s : WSettings) (l : List (WReq × Nat))
    (re : WReq × Nat) (h : re ∈ (phaseB1 env s l).2) :
    re ∈ l ∧ env.storeInitOk (storeFor s re.1) = true := by
  induction l with
  | nil => simp [phaseB1] at h
  | cons hd tl ih =>
      simp only [phaseB1] at h
      by_cases hs : env.storeInitOk (storeFor s hd.1) = true
      · rw [if_pos hs] at h
        rcases List.mem_cons.mp h with h1 | h1
        · subst h1
          exact ⟨List.mem_cons_self _ _, hs⟩
        · obtain ⟨hmem, hok⟩ := ih h1
          exact ⟨List.mem_cons_of_mem _ hmem, hok⟩
      · rw [if_neg hs] at h
        obtain ⟨hmem, hok⟩ := ih h
        exact ⟨List.mem_cons_of_mem _ hmem, hok⟩

theorem phaseB1_survivor_of_ok (env : WEnv) (s : WSettings)
    (l : List (WReq × Nat)) (re : WReq × Nat) (h : re ∈ l)
    (hok : env.storeInitOk (storeFor s re.1) = true) :
    re ∈ (phaseB1 env s l).2 := by
  induction l with
  | nil => simp at h
  | cons hd tl ih =>
      simp only [phaseB1]
      rcases List.mem_cons.mp h with h1 | h1
      · subst h1
        rw [if_pos hok]
        exact List.mem_cons_self _ _
      · by_cases hs : env.storeInitOk (storeFor s hd.1) = true
        · rw [if_pos hs]
          exact List.mem_cons_of_mem _ (ih h1)
        · rw [if_neg hs]
          exact ih h1

theorem phaseB1_no_status (env : WEnv) (s : WSettings) (l : List (WReq × Nat))
    (tids : List String) (st : String) (hst : st ≠ "failed") :
    WEv.status tids st ∉ (phaseB1 env s l).1 := by
  induction l with
  | nil => simp [phaseB1]
  | cons hd tl ih =>
      simp only [phaseB1]
      by_cases hs : env.storeInitOk (storeFor s hd.1) = true
      · rw [if_pos hs]
        exact ih
      · rw [if_neg hs]
        intro h
        rcases List.mem_cons.mp h with h1 | h1
        · injection h1 with h2 h3
          exact hst h3
        · rcases List.mem_cons.mp h1 with h2 | h2
          · exact absurd h2 (by simp)
          · exact ih h2

theorem phaseB2_ack (env : WEnv) (s : WSettings) (l : List (WReq × Nat))
    (e : Nat) (h : WEv.ack e ∈ (phaseB2 env s l).1) :
    ∃ re ∈ l, re.2 = e ∧
      (env.loadOk re.2 = false ∨ overrideConflict s re.1 = true) := by
  induction l with
  | nil => simp [phaseB2] at h
  | cons hd tl ih =>
      simp only [phaseB2] at h
      by_cases hl : env.loadOk hd.2 = true
      · by_cases ho : overrideConflict s hd.1 = true
        · rw [if_neg (by simp [hl]), if_pos ho] at h
          rcases List.mem_cons.mp h with h1 | h1
          · exact absurd h1 (by simp)
          · rcases List.mem_cons.mp h1 with h2 | h2
            · injection h2 with h3
              exact ⟨hd, List.mem_cons_self _ _, h3.symm, Or.inr ho⟩
            · obtain ⟨re, hre, hprop⟩ := ih h2
              exact ⟨re, List.mem_cons_of_mem _ hre, hprop⟩
        · rw [if_neg (by simp [hl]), if_neg ho] at h
          obtain ⟨re, hre, hprop⟩ := ih h
          exact ⟨re, List.mem_cons_of_mem _ hre, hprop⟩
      · rw [if_pos (by simp [hl])] at h
        rcases List.mem_cons.mp h with h1 | h1
        · exact absurd h1 (by simp)
        · rcases List.mem_cons.mp h1 with h2 | h2
          · injection h2 with h3
            exact ⟨hd, List.mem_cons_self _ _, h3.symm,
              Or.inl (by simpa using hl)⟩
          · obtain ⟨re, hre, hprop⟩ := ih h2
            exact ⟨re, List.mem_cons_of_mem _ hre, hprop⟩

theorem phaseB2_no_status (env : WEnv) (s : WSettings) (l : List (WReq × Nat))
    (tids : List String) (st : String) (hst : st ≠ "failed") :
    WEv.status tids st ∉ (phaseB2 env s l).1 := by
  induction l with
  | nil => simp [phaseB2]
  | cons hd tl ih =>
      simp only [phaseB2]
      by_cases hl : env.loadOk hd.2 = true
      · by_cases ho : overrideConflict s hd.1 = true
        · rw [if_neg (by simp [hl]), if_pos ho]
          intro h
          rcases List.mem_cons.mp h with h1 | h1
          · injection h1 with h2 h3
            exact hst h3
          · rcases List.mem_cons.mp h1 with h2 | h2
            · exact absurd h2 (by simp)
            · exact ih h2
        · rw [if_neg (by simp [hl]), if_neg ho]
          exact ih
      · rw [if_pos (by simp [hl])]
        intro h
        rcases List.mem_cons.mp h with h1 | h1
        · injection h1 with h2 h3
          exact hst h3
        · rcases List.mem_cons.mp h1 with h2 | h2
          · exact absurd h2 (by simp)
          · exact ih h2

theorem phaseB2_item (env : WEnv) (s : WSettings) (l : List (WReq × Nat))
    (it : WItem) (h : it ∈ (phaseB2 env s l).2) :
    (it.req, it.envId) ∈ l ∧ env.loadOk it.envId = true ∧
      overrideConflict s it.req = false ∧
      it.table = resolveTableName s (resolveModel it.req s) := by
  induction l with
  | nil => simp [phaseB2] at h
  | cons hd tl ih =>
      simp only [phaseB2] at h
      by_cases hl : env.loadOk hd.2 = true
      · by_cases ho : overrideConflict s hd.1 = true
        · rw [if_neg (by simp [hl]), if_pos ho] at h
          obtain ⟨hmem, hrest⟩ := ih h
          exact ⟨List.mem_cons_of_mem _ hmem, hrest⟩
        · rw [if_neg (by simp [hl]), if_neg ho] at h
          rcases List.mem_cons.mp h with h1 | h1
          · subst h1
            exact ⟨List.mem_cons_self _ _, hl, by simpa using ho, rfl⟩
          · obtain ⟨hmem, hrest⟩ := ih h1
            exact ⟨List.mem_cons_of_mem _ hmem, hrest⟩
      · rw [if_pos (by simp [hl])] at h
        obtain ⟨hmem, hrest⟩ := ih h
        exact ⟨List.mem_cons_of_mem _ hmem, hrest⟩

theorem phaseB2_item_of_ok (env : WEnv) (s : WSettings)
    (l : List (WReq × Nat)) (re : WReq × Nat) (h : re ∈ l)
    (hl : env.loadOk re.2 = true) (ho : overrideConflict s re.1 = false) :
    ({ req := re.1
       envId := re.2
       backend := resolveBackend re.1 s
       model := resolveModel re.1 s
       table := resolveTableName s (resolveModel re.1 s) } : WItem) ∈
      (phaseB2 env s l).2 := by
  induction l with
  | nil => simp at h
  | cons hd tl ih =>
      simp only [phaseB2]
      rcases List.mem_cons.mp h with h1 | h1
      · subst h1
        rw [if_neg (by simp [hl]), if_neg (by simp [ho])]
        exact List.mem_cons_self _ _
      · by_cases hl' : env.loadOk hd.2 = true
        · by_cases ho' : overrideConflict s hd.1 = true
          · rw [if_neg (by simp [hl']), if_pos ho']
            exact ih h1
          · rw [if_neg (by simp [hl']), if_neg ho']
            exact List.mem_cons_of_mem _ (ih h1)
        · rw [if_pos (by simp [hl'])]
          exact ih h1

theorem phaseB2_loadfail_events (env : WEnv) (s : WSettings)
    (l : List (WReq × Nat)) (re : WReq × Nat) (h : re ∈ l)
    (hl : env.loadOk re.2 = false) :
    WEv.status [tileIdForReq re.1] "failed" ∈ (phaseB2 env s l).1 ∧
      WEv.ack re.2 ∈ (phaseB2 env s l).1 := by
  induction l with
  | nil => simp at h
  | cons hd tl ih =>
      simp only [phaseB2]
      rcases List.mem_cons.mp h with h1 | h1
      · subst h1
        rw [if_pos (by simp [hl])]
        exact ⟨List.mem_cons_self _ _,
          List.mem_cons_of_mem _ (List.mem_cons_self _ _)⟩
      · by_cases hl' : env.loadOk hd.2 = true
        · by_cases ho' : overrideConflict s hd.1 = true
          · rw [if_neg (by simp [hl']), if_pos ho']
            exact ⟨List.mem_cons_of_mem _ (List.mem_cons_of_mem _ (ih h1).1),
              List.mem_cons_of_mem _ (List.mem_cons_of_mem _ (ih h1).2)⟩
          · rw [if_neg (by simp [hl']), if_neg ho']
            exact ih h1
        · rw [if_pos (by simp [hl'])]
          exact ⟨List.mem_cons_of_mem _ (List.mem_cons_of_mem _ (ih h1).1),
            List.mem_cons_of_mem _ (List.mem_cons_of_mem _ (ih h1).2)⟩

theorem upsertPhase_true_iff (env : WEnv) (l : List (String × List WItem)) :
    (upsertPhase env l).2 = true ↔ ∀ g ∈ l, env.upsertOk g.1 = true := by
  induction l with
  | nil => simp [upsertPhase]
  | cons hd tl ih =>
      simp only [upsertPhase]
      by_cases hu : env.upsertOk hd.1 = true
      · rw [if_pos hu]
        simp only [ih]
        constructor
        · intro hall g hg
          rcases List.mem_cons.mp hg with h1 | h1
          · rw [h1]
            exact hu
          · exact hall g h1
        · intro hall g hg
          exact hall g (List.mem_cons_of_mem _ hg)
      · rw [if_neg hu]
        simp only []
        constructor
        · intro hfalse
          exact absurd hfalse (by simp)
        · intro hall
          exact absurd (hall hd (List.mem_cons_self _ _)) hu

theorem upsertPhase_mem_of_true (env : WEnv) (l : List (String × List WItem))
    (h : (upsertPhase env l).2 = true) :
    ∀ g ∈ l, WEv.upsert g.1 g.2.length ∈ (upsertPhase env l).1 := by
  induction l with
  | nil => simp
  | cons hd tl ih =>
      have hall := (upsertPhase_true_iff env (hd :: tl)).mp h
      have hu : env.upsertOk hd.1 = true := hall hd (List.mem_cons_self _ _)
      have htl : (upsertPhase env tl).2 = true :=
        (upsertPhase_true_iff env tl).mpr
          (fun g hg => hall g (List.mem_cons_of_mem _ hg))
      intro g hg
      simp only [upsertPhase, if_pos hu]
      rcases List.mem_cons.mp hg with h1 | h1
      · subst h1
        exact List.mem_cons_self _ _
      · exact List.mem_cons_of_mem _ (ih htl g h1)

theorem upsertPhase_no_ack (env : WEnv) (l : List (String × List WItem))
    (e : Nat) : WEv.ack e ∉ (upsertPhase env l).1 := by
  induction l with
  | nil => simp [upsertPhase]
  | cons hd tl ih =>
      simp only [upsertPhase]
      by_cases hu : env.upsertOk hd.1 = true
      · rw [if_pos hu]
        intro h
        rcases List.mem_cons.mp h with h1 | h1
        · exact absurd h1 (by simp)
        · exact ih h1
      · rw [if_neg hu]
        simp

theorem upsertPhase_no_status (env : WEnv) (l : List (String × List WItem))
    (tids : List String) (st : String) :
    WEv.status tids st ∉ (upsertPhase env l).1 := by
  induction l with
  | nil => simp [upsertPhase]
  | cons hd tl ih =>
      simp only [upsertPhase]
      by_cases hu : env.upsertOk hd.1 = true
      · rw [if_pos hu]
        intro h
        rcases List.mem_cons.mp h with h1 | h1
        · exact absurd h1 (by simp)
        · exact ih h1
      · rw [if_neg hu]
        simp

theorem ackPhase_no_upsert (env : WEnv) (s : WSettings)
    (l : List (String × List WItem)) (t : String) (n : Nat) :
    WEv.upsert t n ∉ ackPhase env s l := by
  induction l with
  | nil => simp [ackPhase]
  | cons hd tl ih =>
      simp only [ackPhase]
      intro h
      rcases List.mem_cons.mp h with h1 | h1
      · exact absurd h1 (by simp)
      · rcases List.mem_append.mp h1 with h2 | h2
        · revert h2
          split
          · intro h2
            simp [List.mem_map] at h2
          · intro h2
            simp at h2
        · exact ih h2

theorem ackPhase_ack_of_ok (env : WEnv) (s : WSettings)
    (l : List (String × List WItem)) (g : String × List WItem) (it : WItem)
    (hg : g ∈ l) (hit : it ∈ g.2)
    (hok : env.statusUpdateOk (g.2.map fun i => tileIdForReq i.req) "indexed" = true
       ∨ s.requireIndexStatusBeforeAck = false) :
    WEv.ack it.envId ∈ ackPhase env s l := by
  induction l with
  | nil => simp at hg
  | cons hd tl ih =>
      simp only [ackPhase]
      rcases List.mem_cons.mp hg with h1 | h1
      · subst h1
        refine List.mem_cons_of_mem _ (List.mem_append.mpr (Or.inl ?_))
        rw [if_pos (by
          rcases hok with h | h
          · exact Or.inl h
          · exact Or.inr (by simp [h]))]
        exact List.mem_map_of_mem _ hit
      · exact List.mem_cons_of_mem _ (List.mem_append.mpr (Or.inr (ih h1)))

theorem groupAppend_preserves {α β : Type} [DecidableEq α]
    (d : List (α × List β)) (k : α) (v : β) (k0 : α) (x : β)
    (h : ∃ g ∈ d, g.1 = k0 ∧ x ∈ g.2) :
    ∃ g ∈ groupAppend d k v, g.1 = k0 ∧ x ∈ g.2 := by
  induction d with
  | nil => simp at h
  | cons hd tl ih =>
      obtain ⟨g, hg, hk, hx⟩ := h
      simp only [groupAppend]
      by_cases he : hd.1 = k
      · rw [if_pos he]
        rcases List.mem_cons.mp hg with h1 | h1
        · subst h1
          exact ⟨(g.1, g.2 ++ [v]), List.mem_cons_self _ _, hk,
            List.mem_append.mpr (Or.inl hx)⟩
        · exact ⟨g, List.mem_cons_of_mem _ h1, hk, hx⟩
      · rw [if_neg he]
        rcases List.mem_cons.mp hg with h1 | h1
        · subst h1
          exact ⟨g, List.mem_cons_self _ _, hk, hx⟩
        · obtain ⟨g', hg', hk', hx'⟩ := ih ⟨g, h1, hk, hx⟩
          exact ⟨g', List.mem_cons_of_mem _ hg', hk', hx'⟩

theorem groupAppend_adds {α β : Type} [DecidableEq α]
    (d : List (α × List β)) (k : α) (v : β) :
    ∃ g ∈ groupAppend d k v, g.1 = k ∧ v ∈ g.2 := by
  induction d with
  | nil => exact ⟨(k, [v]), by simp [groupAppend]⟩
  | cons hd tl ih =>
      simp only [groupAppend]
      by_cases he : hd.1 = k
      · rw [if_pos he]
        exact ⟨(hd.1, hd.2 ++ [v]), List.mem_cons_self _ _, he, by simp⟩
      · rw [if_neg he]
        obtain ⟨g, hg, hk, hv⟩ := ih
        exact ⟨g, List.mem_cons_of_mem _ hg, hk, hv⟩

theorem groupByKey_cover_aux {α β : Type} [DecidableEq α] (key : β → α)
    (l : List β) (d : List (α × List β)) (x : β) :
    ((∃ g ∈ d, g.1 = key x ∧ x ∈ g.2) ∨ x ∈ l) →
    ∃ g ∈ l.foldl (fun d b => groupAppend d (key b) b) d,
      g.1 = key x ∧ x ∈ g.2 := by
  induction l generalizing d with
  | nil =>
      intro h
      rcases h with h | h
      · exact h
      · simp at h
  | cons hd tl ih =>
      intro h
      simp only [List.foldl_cons]
      apply ih
      rcases h with h | h
      · exact Or.inl (groupAppend_preserves d (key hd) hd (key x) x h)
      · rcases List.mem_cons.mp h with h1 | h1
        · subst h1
          exact Or.inl (groupAppend_adds d (key x) x)
        · exact Or.inr h1

theorem groupByKey_cover {α β : Type} [DecidableEq α] (key : β → α)
    (l : List β) (x : β) (h : x ∈ l) :
    ∃ g ∈ groupByKey key l, g.1 = key x ∧ x ∈ g.2 :=
  groupByKey_cover_aux key l [] x (Or.inr h)

/- Within a batch, envelope ids identify the batch entries (distinct
delivery tags). -/
theorem batch_entry_unique (batch : List (WReq × Nat))
    (hnd : (batch.map Prod.snd).Nodup) (x y : WReq × Nat) (hx : x ∈ batch)
    (hy : y ∈ batch) (he : x.2 = y.2) : x = y :=
  List.inj_on_of_nodup_map hnd hx hy he

/- A surviving item's envelope is never acked during the load phases: its
batch entry passed the tile-store and load/override checks, and by
uniqueness of envelope ids no other entry could have produced that ack. -/
theorem survivor_ack_not_mem_pre (env : WEnv) (s : WSettings)
    (batch : List (WReq × Nat)) (hnd : (batch.map Prod.snd).Nodup)
    (it : WItem) (hit : it ∈ survivors env s batch) :
    WEv.ack it.envId ∉ preTrace env s batch := by
  unfold preTrace
  obtain ⟨hmem1, hload, hov, _⟩ := phaseB2_item env s _ it hit
  obtain ⟨hmem0, hstore⟩ := phaseB1_survivor env s batch _ hmem1
  intro h
  rcases List.mem_cons.mp h with h1 | h1
  · exact absurd h1 (by simp)
  rcases List.mem_append.mp h1 with h2 | h2
  · obtain ⟨re, hre, hesnd, hfail⟩ := phaseB1_ack env s batch it.envId h2
    have : re = (it.req, it.envId) :=
      batch_entry_unique batch hnd re (it.req, it.envId) hre hmem0 hesnd
    rw [this] at hfail
    rw [hstore] at hfail
    simp at hfail
  · obtain ⟨re, hre, hesnd, hfail⟩ :=
      phaseB2_ack env s (phaseB1 env s batch).2 it.envId h2
    have hre0 : re ∈ batch := (phaseB1_survivor env s batch re hre).1
    have : re = (it.req, it.envId) :=
      batch_entry_unique batch hnd re (it.req, it.envId) hre0 hmem0 hesnd
    rw [this] at hfail
    rcases hfail with hf | hf
    · rw [hload] at hf
      simp at hf
    · rw [hov] at hf
      simp at hf

/- No INDEXED status update is ever issued during the load phases. -/
theorem indexed_not_mem_pre (env : WEnv) (s : WSettings)
    (batch : List (WReq × Nat)) (tids : List String) :
    WEv.status tids "indexed" ∉ preTrace env s batch := by
  unfold preTrace
  intro h
  rcases List.mem_cons.mp h with h1 | h1
  · injection h1 with h2 h3
    exact absurd h3 (by decide)
  rcases List.mem_append.mp h1 with h2 | h2
  · exact phaseB1_no_status env s batch tids "indexed" (by decide) h2
  · exact phaseB2_no_status env s _ tids "indexed" (by decide) h2

theorem waitIndex_no_ack (env : WEnv) (s : WSettings)
    (batch : List (WReq × Nat)) (e : Nat) :
    WEv.ack e ∉ waitIndexEvents env s batch := by
  simp [waitIndexEvents, List.mem_map]

theorem waitIndex_no_indexed (env : WEnv) (s : WSettings)
    (batch : List (WReq × Nat)) (tids : List String) :
    WEv.status tids "indexed" ∉ waitIndexEvents env s batch := by
  simp only [waitIndexEvents, List.mem_map]
  rintro ⟨g, hg, hgeq⟩
  injection hgeq with h1 h2
  exact absurd h2 (by decide)

theorem waitIndex_no_upsert (env : WEnv) (s : WSettings)
    (batch : List (WReq × Nat)) (t : String) (n : Nat) :
    WEv.upsert t n ∉ waitIndexEvents env s batch := by
  simp [waitIndexEvents, List.mem_map]

/-- C1: in the embedder worker's `process_batch`, a surviving envelope is
acked only in runs where the upsert of its table group succeeded (and the
trace then contains that upsert); an INDEXED status update implies every
table group's upsert succeeded; if any upsert raises, no surviving envelope
is acked and no tile is set INDEXED in that call, so the messages remain
unacked for redelivery; and the trace splits into a prefix holding every
upsert and a suffix holding every ack of a surviving envelope, so each ack
comes after the upserts. -/
theorem worker_acks_only_after_upsert (env : WEnv) (s : WSettings)
    (batch : List (WReq × Nat)) (hnd : (batch.map Prod.snd).Nodup) :
    (∀ it ∈ survivors env s batch,
       WEv.ack it.envId ∈ processBatch env s batch →
       env.upsertOk it.table = true ∧
       ∃ n, WEv.upsert it.table n ∈ processBatch env s batch) ∧
    (∀ tids, WEv.status tids "indexed" ∈ processBatch env s batch →
       ∀ g ∈ tableGroups env s batch, env.upsertOk g.1 = true) ∧
    ((∃ g ∈ tableGroups env s batch, env.upsertOk g.1 = false) →
       (∀ it ∈ survivors env s batch,
          WEv.ack it.envId ∉ processBatch env s batch) ∧
       (∀ tids, WEv.status tids "indexed" ∉ processBatch env s batch)) ∧
    (∃ l1 l2, processBatch env s batch = l1 ++ l2 ∧
       (∀ t n, WEv.upsert t n ∈ processBatch env s batch →
          WEv.upsert t n ∈ l1) ∧
       (∀ it ∈ survivors env s batch, WEv.ack it.envId ∈ l1 → False)) := by
  by_cases hb : batch.isEmpty
  · rw [processBatch, if_pos hb]
    refine ⟨?_, ?_, ?_, [], [], by simp, by simp, by simp⟩
    · intro it hit hack
      simp at hack
    · intro tids h
      simp at h
    · intro _
      exact ⟨fun it hit h => by simp at h, fun tids h => by simp at h⟩
  · rw [processBatch, if_neg hb]
    by_cases hie : (survivors env s batch).isEmpty
    · rw [if_pos hie]
      have hnosur : ∀ it : WItem, it ∉ survivors env s batch := by
        intro it hmem
        rw [List.isEmpty_iff] at hie
        rw [hie] at hmem
        simp at hmem
      refine ⟨?_, ?_, ?_, preTrace env s batch, [], by simp,
        fun t n h => h, fun it hit _ => absurd hit (hnosur it)⟩
      · intro it hit
        exact absurd hit (hnosur it)
      · intro tids h
        exact absurd h (indexed_not_mem_pre env s batch tids)
      · intro _
        exact ⟨fun it hit _ => absurd hit (hnosur it),
          fun tids h => indexed_not_mem_pre env s batch tids h⟩
    · rw [if_neg hie]
      by_cases hem : ¬ (groupByKey (fun it : WItem => (it.backend, it.model))
          (survivors env s batch)).all (fun g => env.embedOk g.1.1 g.1.2) = true
      · rw [if_pos hem]
        refine ⟨?_, ?_, ?_, preTrace env s batch, [], by simp,
          fun t n h => h,
          fun it hit h => survivor_ack_not_mem_pre env s batch hnd it hit h⟩
        · intro it hit hack
          exact absurd hack (survivor_ack_not_mem_pre env s batch hnd it hit)
        · intro tids h
          exact absurd h (indexed_not_mem_pre env s batch tids)
        · intro _
          exact ⟨fun it hit h =>
              survivor_ack_not_mem_pre env s batch hnd it hit h,
            fun tids h => indexed_not_mem_pre env s batch tids h⟩
      · rw [if_neg hem]
        by_cases hfr : (upsertPhase env (tableGroups env s batch)).2 = true
        · rw [if_pos hfr]
          have hall := (upsertPhase_true_iff env _).mp hfr
          refine ⟨?_, ?_, ?_, ?_⟩
          · intro it hit _
            obtain ⟨g, hg, hk, _⟩ := groupByKey_cover
              (fun i : WItem => i.table) (survivors env s batch) it hit
            refine ⟨hk ▸ hall g hg, g.2.length, ?_⟩
            have hup := upsertPhase_mem_of_true env _ hfr g hg
            rw [hk] at hup
            exact List.mem_append.mpr (Or.inl (List.mem_append.mpr
              (Or.inr hup)))
          · intro tids _
            exact hall
          · intro hex
            obtain ⟨g, hg, hfalse⟩ := hex
            rw [hall g hg] at hfalse
            simp at hfalse
          · refine ⟨preTrace env s batch ++ waitIndexEvents env s batch ++
                (upsertPhase env (tableGroups env s batch)).1,
              ackPhase env s (tableGroups env s batch),
              by simp [List.append_assoc], ?_, ?_⟩
            · intro t n hmem
              rcases List.mem_append.mp hmem with h1 | h1
              · exact h1
              · exact absurd h1 (ackPhase_no_upsert env s _ t n)
            · intro it hit h
              rcases List.mem_append.mp h with h1 | h1
              · rcases List.mem_append.mp h1 with h2 | h2
                · exact survivor_ack_not_mem_pre env s batch hnd it hit h2
                · exact waitIndex_no_ack env s batch it.envId h2
              · exact upsertPhase_no_ack env _ it.envId h1
        · rw [if_neg hfr]
          have hnoack : ∀ it ∈ survivors env s batch,
              WEv.ack it.envId ∉
                preTrace env s batch ++ waitIndexEvents env s batch ++
                  (upsertPhase env (tableGroups env s batch)).1 := by
            intro it hit h
            rcases List.mem_append.mp h with h1 | h1
            · rcases List.mem_append.mp h1 with h2 | h2
              · exact survivor_ack_not_mem_pre env s batch hnd it hit h2
              · exact waitIndex_no_ack env s batch it.envId h2
            · exact upsertPhase_no_ack env _ it.envId h1
          have hnoidx : ∀ tids,
              WEv.status tids "indexed" ∉
                preTrace env s batch ++ waitIndexEvents env s batch ++
                  (upsertPhase env (tableGroups env s batch)).1 := by
            intro tids h
            rcases List.mem_append.mp h with h1 | h1
            · rcases List.mem_append.mp h1 with h2 | h2
              · exact indexed_not_mem_pre env s batch tids h2
              · exact waitIndex_no_indexed env s batch tids h2
            · exact upsertPhase_no_status env _ tids "indexed" h1
          refine ⟨?_, ?_, ?_, preTrace env s batch ++
              waitIndexEvents env s batch ++
              (upsertPhase env (tableGroups env s batch)).1, [],
            by simp, fun t n h => h, fun it hit h => hnoack it hit h⟩
          · intro it hit hack
            exact absurd hack (hnoack it hit)
          · intro tids h
            exact absurd h (hnoidx tids)
          · intro _
            exact ⟨hnoack, hnoidx⟩

/- A worker environment in which every external call succeeds. -/
def wEnvOk : WEnv :=
  { storeInitOk := fun _ => true
    loadOk := fun _ => true
    embedOk := fun _ _ => true
    upsertOk := fun _ => true
    statusUpdateOk := fun _ _ => true }

/- A worker environment in which the tile load of envelope 2 fails (load
error or timeout). -/
def wEnvLoadFail : WEnv :=
  { storeInitOk := fun _ => true
    loadOk := fun e => decide (e ≠ 2)
    embedOk := fun _ _ => true
    upsertOk := fun _ => true
    statusUpdateOk := fun _ _ => true }

def wSettingsW : WSettings :=
  { embedderBackend := "pe_core"
    modelName := "PE-Core-L14-336"
    tableName := ""
    tileStore := "orthophoto"
    batchSize := 2
    requireIndexStatusBeforeAck := false }

def wReqA : WReq := { imageId := 1, tileId := some "orthophoto:0/0/0" }

def wReqB : WReq := { imageId := 2 }

def itemA : WItem :=
  { req := wReqA
    envId := 1
    backend := "pe_core"
    model := "PE-Core-L14-336"
    table := "tiles_pe_core_l14_336" }

/-- C1 witness: the theorem applied to a concrete two-envelope batch whose
run succeeds end to end; the surviving envelope 1 is acked and its table's
upsert both succeeded and appears in the trace. -/
theorem worker_acks_only_after_upsert_witness :
    (([(wReqA, 1), (wReqB, 2)]).map Prod.snd).Nodup ∧
    itemA ∈ survivors wEnvOk wSettingsW [(wReqA, 1), (wReqB, 2)] ∧
    WEv.ack 1 ∈ processBatch wEnvOk wSettingsW [(wReqA, 1), (wReqB, 2)] ∧
    wEnvOk.upsertOk itemA.table = true := by
  have h := worker_acks_only_after_upsert wEnvOk wSettingsW
    [(wReqA, 1), (wReqB, 2)] (by decide)
  refine ⟨by decide, by decide, by decide, ?_⟩
  exact (h.1 itemA (by decide) (by decide)).1

/- The load-pipeline events are part of every `process_batch` trace over a
nonempty batch, whichever way the call ends. -/
theorem preTrace_subset_processBatch (env : WEnv) (s : WSettings)
    (batch : List (WReq × Nat)) (hb : batch.isEmpty = false) :
    ∀ ev ∈ preTrace env s batch, ev ∈ processBatch env s batch := by
  intro ev h
  rw [processBatch, if_neg (by simp [hb])]
  split_ifs with h1 h2 h3
  all_goals
    first
      | exact h
      | exact List.mem_append.mpr (Or.inl (List.mem_append.mpr (Or.inl
          (List.mem_append.mpr (Or.inl h)))))
      | exact List.mem_append.mpr (Or.inl (List.mem_append.mpr (Or.inl h)))

/-- C6 counterexample: a poison payload (a message `IndexRequest` rejects)
raises inside the consume loop and is caught by the outer handler, which
clears the whole local batch: the poison envelope is neither acked nor has
a tile marked FAILED, and the other buffered envelope of the batch is
dropped from local processing instead of proceeding — nothing is isolated. -/
theorem poison_payload_counterexample :
    consumeStep wEnvOk wSettingsW [(wReqA, 1)] none 2 false = ([], []) ∧
    WEv.ack 2 ∉ (consumeStep wEnvOk wSettingsW [(wReqA, 1)] none 2 false).2 ∧
    (consumeStep wEnvOk wSettingsW [(wReqA, 1)] none 2 false).1 = [] := by
  refine ⟨rfl, ?_, rfl⟩
  simp [consumeStep]

/-- C6 (amended): a tile-load failure or timeout is isolated — the tile is
marked FAILED, its envelope is acked, and when the remaining stages succeed
every other envelope of the batch still reaches its upsert and is acked; a
poison payload, however, is not isolated: `IndexRequest(**payload)` raises
into the outer consume handler, which drops the entire local batch with no
ack and no FAILED mark (the messages are redelivered). -/
theorem worker_bad_envelope_amended (env : WEnv) (s : WSettings)
    (batch : List (WReq × Nat)) (hnd : (batch.map Prod.snd).Nodup)
    (bad : WReq × Nat) (hbad : bad ∈ batch)
    (hstore : env.storeInitOk (storeFor s bad.1) = true)
    (hload : env.loadOk bad.2 = false) :
    (∀ (b : List (WReq × Nat)) (e : Nat) (fd : Bool),
       consumeStep env s b none e fd = ([], [])) ∧
    (WEv.status [tileIdForReq bad.1] "failed" ∈ processBatch env s batch ∧
     WEv.ack bad.2 ∈ processBatch env s batch) ∧
    ((∀ re ∈ batch, re ≠ bad →
        env.storeInitOk (storeFor s re.1) = true ∧
        env.loadOk re.2 = true ∧ overrideConflict s re.1 = false) →
     (∀ b m, env.embedOk b m = true) →
     (∀ t, env.upsertOk t = true) →
     (∀ tids st, env.statusUpdateOk tids st = true) →
     ∀ re ∈ batch, re ≠ bad →
       WEv.ack re.2 ∈ processBatch env s batch ∧
       ∃ n, WEv.upsert (resolveTableName s (resolveModel re.1 s)) n ∈
         processBatch env s batch) := by
  have hbne : batch.isEmpty = false := by
    cases batch with
    | nil => simp at hbad
    | cons hd tl => rfl
  have hbadsurv : bad ∈ (phaseB1 env s batch).2 :=
    phaseB1_survivor_of_ok env s batch bad hbad hstore
  have hbadevents := phaseB2_loadfail_events env s
    (phaseB1 env s batch).2 bad hbadsurv hload
  refine ⟨fun b e fd => rfl, ?_, ?_⟩
  · constructor
    · exact preTrace_subset_processBatch env s batch hbne _
        (List.mem_cons_of_mem _ (List.mem_append.mpr (Or.inr hbadevents.1)))
    · exact preTrace_subset_processBatch env s batch hbne _
        (List.mem_cons_of_mem _ (List.mem_append.mpr (Or.inr hbadevents.2)))
  · intro hrest hembed hupsert hstatus re hre hne
    have hcond := hrest re hre hne
    have hitem := phaseB2_item_of_ok env s (phaseB1 env s batch).2
      re (phaseB1_survivor_of_ok env s batch re hre hcond.1)
      hcond.2.1 hcond.2.2
    have hitem' : _ ∈ survivors env s batch := hitem
    have hie : (survivors env s batch).isEmpty = false := by
      cases hsur : survivors env s batch with
      | nil => rw [hsur] at hitem'; simp at hitem'
      | cons hd tl => rfl
    have hall : (groupByKey (fun it : WItem => (it.backend, it.model))
        (survivors env s batch)).all (fun g => env.embedOk g.1.1 g.1.2) = true :=
      List.all_eq_true.mpr (fun g _ => hembed g.1.1 g.1.2)
    have hfr : (upsertPhase env (tableGroups env s batch)).2 = true :=
      (upsertPhase_true_iff env _).mpr (fun g _ => hupsert g.1)
    have hproc : processBatch env s batch =
        preTrace env s batch ++ waitIndexEvents env s batch ++
          (upsertPhase env (tableGroups env s batch)).1 ++
          ackPhase env s (tableGroups env s batch) := by
      rw [processBatch, if_neg (by simp [hbne]), if_neg (by simp [hie]),
        if_neg (by simp [hall]), if_pos hfr]
    obtain ⟨g, hg, hk, hx⟩ := groupByKey_cover (fun i : WItem => i.table)
      (survivors env s batch) _ hitem'
    constructor
    · rw [hproc]
      refine List.mem_append.mpr (Or.inr ?_)
      exact ackPhase_ack_of_ok env s _ g _ hg hx (Or.inl (hstatus _ _))
    · refine ⟨g.2.length, ?_⟩
      rw [hproc]
      have hup := upsertPhase_mem_of_true env _ hfr g hg
      rw [hk] at hup
      exact List.mem_append.mpr (Or.inl (List.mem_append.mpr (Or.inr hup)))

/-- C6 witness: the amended theorem on a concrete batch where envelope 2's
load fails: the poison path drops the batch, envelope 2 is failed and
acked, and envelope 1 still reaches its upsert and ack. -/
theorem worker_bad_envelope_amended_witness :
    ((([(wReqA, 1), (wReqB, 2)]).map Prod.snd).Nodup ∧
     (wReqB, 2) ∈ [(wReqA, 1), (wReqB, 2)] ∧
     wEnvLoadFail.storeInitOk (storeFor wSettingsW wReqB) = true ∧
     wEnvLoadFail.loadOk 2 = false) ∧
    consumeStep wEnvLoadFail wSettingsW [(wReqA, 1)] none 7 true = ([], []) ∧
    WEv.ack 2 ∈ processBatch wEnvLoadFail wSettingsW [(wReqA, 1), (wReqB, 2)] ∧
    WEv.status [tileIdForReq wReqB] "failed" ∈
      processBatch wEnvLoadFail wSettingsW [(wReqA, 1), (wReqB, 2)] ∧
    WEv.ack 1 ∈ processBatch wEnvLoadFail wSettingsW [(wReqA, 1), (wReqB, 2)] := by
  have h := worker_bad_envelope_amended wEnvLoadFail wSettingsW
    [(wReqA, 1), (wReqB, 2)] (by decide) (wReqB, 2) (by decide) (by decide)
    (by decide)
  refine ⟨⟨by decide, by decide, by decide, by decide⟩, h.1 [(wReqA, 1)] 7 true,
    h.2.1.2, h.2.1.1, ?_⟩
  exact (h.2.2 (by decide) (fun _ _ => rfl) (fun _ => rfl) (fun _ _ => rfl)
    (wReqA, 1) (by decide) (by decide)).1

/- ------------------------------------------------------------------ -/
/- Canonical tile ids (core/tile_id.py).  Python integer formatting is
modelled by a fuel-driven decimal printer (structurally recursive, so
concrete ids evaluate inside proofs), and `rstrip(":")` by dropping the
trailing colons of the character list. -/
/- ------------------------------------------------------------------ -/

def digitChar (k : Nat) : Char :=
  if k = 0 then '0'
  else if k = 1 then '1'
  else if k = 2 then '2'
  else if k = 3 then '3'
  else if k = 4 then '4'
  else if k = 5 then '5'
  else if k = 6 then '6'
  else if k = 7 then '7'
  else if k = 8 then '8'
  else '9'

def digitVal (c : Char) : Nat :=
  if c = '0' then 0
  else if c = '1' then 1
  else if c = '2' then 2
  else if c = '3' then 3
  else if c = '4' then 4
  else if c = '5' then 5
  else if c = '6' then 6
  else if c = '7' then 7
  else if c = '8' then 8
  else 9

def natDigitsAux : Nat → Nat → List Char → List Char
  | 0, _, acc => acc
  | fuel + 1, n, acc =>
      if n = 0 then acc
      else natDigitsAux fuel (n / 10) (digitChar (n % 10) :: acc)

/- Decimal digits of a natural number, most significant first. -/
def natChars (n : Nat) : List Char :=
  if n = 0 then ['0'] else natDigitsAux n n []

/- Python `str(i)` for an int. -/
def intChars (i : Int) : List Char :=
  match i with
  | .ofNat n => natChars n
  | .negSucc n => '-' :: natChars (n + 1)

/- Python `s.rstrip(":")`. -/
def stripTrailingColons (l : List Char) : List Char :=
  (l.reverse.dropWhile (fun c => c = ':')).reverse

structure TileKey where
  source : String
  z : Int
  x : Int
  y : Int
  variant : Option String := none
  deriving DecidableEq, Repr

/- The character list of
`f"{key.source}:{key.z}/{key.x}/{key.y}:{variant}".rstrip(":")` with
`variant = key.variant or ""`. -/
def canonicalChars (k : TileKey) : List Char :=
  stripTrailingColons
    (k.source.data ++ ':' :: intChars k.z ++ '/' :: intChars k.x ++
      '/' :: intChars k.y ++ ':' :: (k.variant.getD "").data)

/- `canonical_tile_id`. -/
def canonical_tile_id (k : TileKey) : String :=
  ⟨canonicalChars k⟩

/- Digit characters. -/

theorem digitChar_ne (k : Nat) :
    digitChar k ≠ ':' ∧ digitChar k ≠ '/' ∧ digitChar k ≠ '-' := by
  unfold digitChar
  split_ifs <;> refine ⟨by decide, by decide, by decide⟩

theorem digitVal_digitChar (k : Nat) (h : k < 10) :
    digitVal (digitChar k) = k := by
  interval_cases k <;> decide

/- natDigitsAux: fuel stability and structure. -/

theorem natDigitsAux_fuel (fuel fuel' n : Nat) (acc : List Char)
    (h : n ≤ fuel) (h' : n ≤ fuel') :
    natDigitsAux fuel n acc = natDigitsAux fuel' n acc := by
  induction fuel generalizing fuel' n acc with
  | zero =>
      have hn : n = 0 := Nat.le_zero.mp h
      subst hn
      cases fuel' with
      | zero => rfl
      | succ f' => simp [natDigitsAux]
  | succ f ih =>
      by_cases hn : n = 0
      · subst hn
        cases fuel' with
        | zero => simp [natDigitsAux]
        | succ f' => simp [natDigitsAux]
      · cases fuel' with
        | zero => exact absurd (Nat.le_zero.mp h') hn
        | succ f' =>
            simp only [natDigitsAux, if_neg hn]
            have hdiv : n / 10 ≤ f := by
              have h1 : n / 10 < n := Nat.div_lt_self (Nat.pos_of_ne_zero hn)
                (by decide)
              omega
            have hdiv' : n / 10 ≤ f' := by
              have h1 : n / 10 < n := Nat.div_lt_self (Nat.pos_of_ne_zero hn)
                (by decide)
              omega
            exact ih f' (n / 10) _ hdiv hdiv'

theorem natDigitsAux_append (fuel n : Nat) (acc : List Char) (h : n ≤ fuel) :
    natDigitsAux fuel n acc = natDigitsAux fuel n [] ++ acc := by
  induction fuel generalizing n acc with
  | zero => simp [natDigitsAux]
  | succ f ih =>
      by_cases hn : n = 0
      · simp [natDigitsAux, hn]
      · simp only [natDigitsAux, if_neg hn]
        have hdiv : n / 10 ≤ f := by
          have h1 : n / 10 < n := Nat.div_lt_self (Nat.pos_of_ne_zero hn)
            (by decide)
          omega
        rw [ih (n / 10) (digitChar (n % 10) :: acc) hdiv,
          ih (n / 10) [digitChar (n % 10)] hdiv]
        simp

/- natChars: decomposition by the last digit. -/

theorem natChars_zero : natChars 0 = ['0'] := rfl

theorem natChars_small (n : Nat) (h0 : n ≠ 0) (h : n < 10) :
    natChars n = [digitChar n] := by
  unfold natChars
  rw [if_neg h0]
  cases n with
  | zero => exact absurd rfl h0
  | succ m =>
      simp only [natDigitsAux, if_neg h0]
      have hdiv : (m + 1) / 10 = 0 := Nat.div_eq_of_lt h
      rw [hdiv]
      have hmod : (m + 1) % 10 = m + 1 := Nat.mod_eq_of_lt h
      rw [hmod]
      cases m with
      | zero => rfl
      | succ m' => simp [natDigitsAux]

theorem natChars_step (n : Nat) (h : 10 ≤ n) :
    natChars n = natChars (n / 10) ++ [digitChar (n % 10)] := by
  have h0 : n ≠ 0 := by omega
  have hd0 : n / 10 ≠ 0 := by
    intro hc
    have := Nat.div_eq_of_lt (show n < 10 by
      by_contra hge
      push_neg at hge
      have : 1 ≤ n / 10 := (Nat.le_div_iff_mul_le (by decide)).mpr (by omega)
      omega)
    omega
  unfold natChars
  rw [if_neg h0, if_neg hd0]
  cases n with
  | zero => exact absurd rfl h0
  | succ m =>
      simp only [natDigitsAux, if_neg h0]
      rw [natDigitsAux_append m ((m + 1) / 10) _ (by
        have := Nat.div_lt_self (Nat.succ_pos m) (show 1 < 10 by decide)
        omega)]
      rw [natDigitsAux_fuel m ((m + 1) / 10) ((m + 1) / 10) [] (by
        have := Nat.div_lt_self (Nat.succ_pos m) (show 1 < 10 by decide)
        omega) (Nat.le_refl _)]

theorem natChars_digits (n : Nat) :
    ∀ c ∈ natChars n, ∃ k, k < 10 ∧ c = digitChar k := by
  induction n using Nat.strong_induction_on with
  | _ n ih =>
      intro c hc
      by_cases h0 : n = 0
      · subst h0
        rw [natChars_zero] at hc
        rcases List.mem_cons.mp hc with h | h
        · exact ⟨0, by decide, by rw [h]; decide⟩
        · simp at h
      · by_cases h10 : n < 10
        · rw [natChars_small n h0 h10] at hc
          rcases List.mem_cons.mp hc with h | h
          · exact ⟨n, h10, h⟩
          · simp at h
        · push_neg at h10
          rw [natChars_step n h10] at hc
          rcases List.mem_append.mp hc with h | h
          · exact ih (n / 10) (Nat.div_lt_self (by omega) (by decide)) c h
          · rcases List.mem_cons.mp h with h1 | h1
            · exact ⟨n % 10, Nat.mod_lt n (by decide), h1⟩
            · simp at h1

theorem colon_not_mem_natChars (n : Nat) : ':' ∉ natChars n := by
  intro h
  obtain ⟨k, _, hk⟩ := natChars_digits n ':' h
  exact (digitChar_ne k).1 hk.symm

theorem slash_not_mem_natChars (n : Nat) : '/' ∉ natChars n := by
  intro h
  obtain ⟨k, _, hk⟩ := natChars_digits n '/' h
  exact (digitChar_ne k).2.1 hk.symm

theorem dash_not_mem_natChars (n : Nat) : '-' ∉ natChars n := by
  intro h
  obtain ⟨k, _, hk⟩ := natChars_digits n '-' h
  exact (digitChar_ne k).2.2 hk.symm

theorem natChars_concat (n : Nat) :
    ∃ l k, k < 10 ∧ natChars n = l ++ [digitChar k] := by
  by_cases h0 : n = 0
  · refine ⟨[], 0, by decide, ?_⟩
    rw [h0, natChars_zero]
    decide
  · by_cases h10 : n < 10
    · exact ⟨[], n, h10, by simp [natChars_small n h0 h10]⟩
    · push_neg at h10
      exact ⟨natChars (n / 10), n % 10, Nat.mod_lt n (by decide),
        natChars_step n h10⟩

def parseNat (l : List Char) : Nat :=
  l.foldl (fun a c => a * 10 + digitVal c) 0

theorem parseNat_natChars (n : Nat) : parseNat (natChars n) = n := by
  induction n using Nat.strong_induction_on with
  | _ n ih =>
      by_cases h0 : n = 0
      · subst h0
        decide
      · by_cases h10 : n < 10
        · rw [natChars_small n h0 h10]
          show (0 * 10 + digitVal (digitChar n)) = n
          rw [digitVal_digitChar n h10]
          omega
        · push_neg at h10
          rw [natChars_step n h10]
          unfold parseNat
          rw [List.foldl_append]
          have hrec : List.foldl (fun a c => a * 10 + digitVal c) 0
              (natChars (n / 10)) = n / 10 :=
            ih (n / 10) (Nat.div_lt_self (by omega) (by decide))
          rw [hrec]
          show n / 10 * 10 + digitVal (digitChar (n % 10)) = n
          rw [digitVal_digitChar (n % 10) (Nat.mod_lt n (by decide))]
          omega

theorem natChars_injective (a b : Nat) (h : natChars a = natChars b) :
    a = b := by
  rw [← parseNat_natChars a, h, parseNat_natChars]

theorem colon_not_mem_intChars (i : Int) : ':' ∉ intChars i := by
  cases i with
  | ofNat n => exact colon_not_mem_natChars n
  | negSucc n =>
      intro h
      rcases List.mem_cons.mp h with h1 | h1
      · exact absurd h1 (by decide)
      · exact colon_not_mem_natChars (n + 1) h1

theorem slash_not_mem_intChars (i : Int) : '/' ∉ intChars i := by
  cases i with
  | ofNat n => exact slash_not_mem_natChars n
  | negSucc n =>
      intro h
      rcases List.mem_cons.mp h with h1 | h1
      · exact absurd h1 (by decide)
      · exact slash_not_mem_natChars (n + 1) h1

theorem intChars_concat (i : Int) :
    ∃ l k, k < 10 ∧ intChars i = l ++ [digitChar k] := by
  cases i with
  | ofNat n => exact natChars_concat n
  | negSucc n =>
      obtain ⟨l, k, hk, hl⟩ := natChars_concat (n + 1)
      exact ⟨'-' :: l, k, hk, by simp [intChars, hl]⟩

theorem intChars_injective (i j : Int) (h : intChars i = intChars j) :
    i = j := by
  cases i with
  | ofNat n =>
      cases j with
      | ofNat m => exact congrArg Int.ofNat (natChars_injective n m h)
      | negSucc m =>
          exfalso
          simp only [intChars] at h
          have : '-' ∈ natChars n := by
            rw [h]
            exact List.mem_cons_self _ _
          exact dash_not_mem_natChars n this
  | negSucc n =>
      cases j with
      | ofNat m =>
          exfalso
          simp only [intChars] at h
          have : '-' ∈ natChars m := by
            rw [← h]
            exact List.mem_cons_self _ _
          exact dash_not_mem_natChars m this
      | negSucc m =>
          simp only [intChars, List.cons.injEq] at h
          have hnm := natChars_injective (n + 1) (m + 1) h.2
          exact congrArg Int.negSucc (by omega)

/- Splitting a list at the first occurrence of a separator. -/
theorem append_sep_inj (c : Char) (a b a' b' : List Char) (ha : c ∉ a)
    (ha' : c ∉ a') (h : a ++ c :: b = a' ++ c :: b') : a = a' ∧ b = b' := by
  induction a generalizing a' with
  | nil =>
      cases a' with
      | nil =>
          simp only [List.nil_append, List.cons.injEq] at h
          exact ⟨rfl, h.2⟩
      | cons y ys =>
          simp only [List.nil_append, List.cons_append,
            List.cons.injEq] at h
          exact absurd (h.1 ▸ List.mem_cons_self y ys) ha'
  | cons x xs ih =>
      cases a' with
      | nil =>
          simp only [List.cons_append, List.nil_append,
            List.cons.injEq] at h
          exact absurd (h.1 ▸ List.mem_cons_self x xs) ha
      | cons y ys =>
          simp only [List.cons_append, List.cons.injEq] at h
          have hxs : c ∉ xs := fun hm => ha (List.mem_cons_of_mem _ hm)
          have hys : c ∉ ys := fun hm => ha' (List.mem_cons_of_mem _ hm)
          obtain ⟨he1, he2⟩ := ih ys hxs hys h.2
          exact ⟨by rw [h.1, he1], he2⟩

/- rstrip(":") on lists ending with / without a colon. -/
theorem strip_append_colon (l : List Char) :
    stripTrailingColons (l ++ [':']) = stripTrailingColons l := by
  simp [stripTrailingColons, List.reverse_append, List.dropWhile_cons]

theorem strip_append_ne (l : List Char) (c : Char) (hc : c ≠ ':') :
    stripTrailingColons (l ++ [c]) = l ++ [c] := by
  simp [stripTrailingColons, List.reverse_append, List.dropWhile_cons, hc]

theorem str_eq_of_data (s t : String) (h : s.data = t.data) : s = t := by
  cases s
  cases t
  exact congrArg String.mk h

/- The canonical characters of a key without a variant: the trailing colon
introduced by the empty variant is stripped and the id ends with the last
digit of y. -/
theorem canonicalChars_none (k : TileKey) (hv : k.variant = none) :
    canonicalChars k =
      k.source.data ++ ':' :: (intChars k.z ++ '/' :: (intChars k.x ++
        '/' :: intChars k.y)) := by
  obtain ⟨l, kd, hkd, hly⟩ := intChars_concat k.y
  unfold canonicalChars
  rw [hv]
  have h1 : k.source.data ++ ':' :: intChars k.z ++ '/' :: intChars k.x ++
      '/' :: intChars k.y ++ ':' :: ((none : Option String).getD "").data =
      (k.source.data ++ ':' :: (intChars k.z ++ '/' :: (intChars k.x ++
        '/' :: intChars k.y))) ++ [':'] := by
    simp
  rw [h1, strip_append_colon, hly]
  have h2 : k.source.data ++ ':' :: (intChars k.z ++ '/' :: (intChars k.x ++
      '/' :: (l ++ [digitChar kd]))) =
      (k.source.data ++ ':' :: (intChars k.z ++ '/' :: (intChars k.x ++
        '/' :: l))) ++ [digitChar kd] := by
    simp
  rw [h2, strip_append_ne _ _ (digitChar_ne kd).1]

/- The canonical characters of a key whose variant is nonempty and does not
end in a colon: nothing is stripped. -/
theorem canonicalChars_some (k : TileKey) (v : String) (hv : k.variant = some v)
    (hne : v.data ≠ []) (hlast : v.data.getLast? ≠ some ':') :
    canonicalChars k =
      k.source.data ++ ':' :: (intChars k.z ++ '/' :: (intChars k.x ++
        '/' :: (intChars k.y ++ ':' :: v.data))) := by
  rcases List.eq_nil_or_concat v.data with hcase | ⟨v0, cv, hvd⟩
  · exact absurd hcase hne
  · rw [List.concat_eq_append] at hvd
    have hcv : cv ≠ ':' := by
      intro hc
      rw [hvd, hc] at hlast
      exact hlast (by rw [List.getLast?_concat])
    unfold canonicalChars
    rw [hv]
    have h1 : k.source.data ++ ':' :: intChars k.z ++ '/' :: intChars k.x ++
        '/' :: intChars k.y ++ ':' :: ((some v).getD "").data =
        (k.source.data ++ ':' :: (intChars k.z ++ '/' :: (intChars k.x ++
          '/' :: (intChars k.y ++ ':' :: v0)))) ++ [cv] := by
      simp [hvd]
    rw [h1, strip_append_ne _ _ hcv, hvd]
    simp

theorem colon_not_mem_zxy (z x y : Int) :
    ':' ∉ intChars z ++ '/' :: (intChars x ++ '/' :: intChars y) := by
  intro h
  simp only [List.mem_append, List.mem_cons] at h
  rcases h with h | h | h | h | h
  · exact colon_not_mem_intChars z h
  · exact absurd h (by decide)
  · exact colon_not_mem_intChars x h
  · exact absurd h (by decide)
  · exact colon_not_mem_intChars y h

/- Splitting the z/x/y segment recovers the three coordinates. -/
theorem zxy_inj (z1 x1 y1 z2 x2 y2 : Int)
    (h : intChars z1 ++ '/' :: (intChars x1 ++ '/' :: intChars y1) =
      intChars z2 ++ '/' :: (intChars x2 ++ '/' :: intChars y2)) :
    z1 = z2 ∧ x1 = x2 ∧ y1 = y2 := by
  obtain ⟨hz, hrest⟩ := append_sep_inj '/' (intChars z1) _ (intChars z2) _
    (slash_not_mem_intChars z1) (slash_not_mem_intChars z2) h
  obtain ⟨hx, hy⟩ := append_sep_inj '/' (intChars x1) _ (intChars x2) _
    (slash_not_mem_intChars x1) (slash_not_mem_intChars x2) hrest
  exact ⟨intChars_injective _ _ hz, intChars_injective _ _ hx,
    intChars_injective _ _ hy⟩

/-- C9 counterexample: the canonical tile-id function is not injective on
tile keys: a variant "x" and a variant "x:" yield the same canonical string
(the trailing colon is removed by `rstrip(":")`) although the keys differ
in the variant field. -/
theorem canonical_tile_id_counterexample :
    canonical_tile_id ⟨"a", 1, 2, 3, some "x"⟩ =
      canonical_tile_id ⟨"a", 1, 2, 3, some "x:"⟩ ∧
    (⟨"a", 1, 2, 3, some "x"⟩ : TileKey) ≠ ⟨"a", 1, 2, 3, some "x:"⟩ := by
  constructor
  · decide
  · decide

/-- C9 (amended): the canonical tile-id function is injective on the tile
keys whose source contains no colon and whose variant is either absent or a
nonempty string not ending in a colon: for such keys
`canonical_tile_id(k1) == canonical_tile_id(k2)` iff `k1 == k2`
field-by-field.  Outside that domain injectivity fails (a variant may lose
its trailing colons to `rstrip`, an empty variant collapses to the absent
one, and colons in the source shift the parse). -/
theorem tile_key_canonical_iff (k1 k2 : TileKey)
    (hs1 : ':' ∉ k1.source.data) (hs2 : ':' ∉ k2.source.data)
    (hv1 : k1.variant = none ∨ ∃ v, k1.variant = some v ∧ v.data ≠ [] ∧
      v.data.getLast? ≠ some ':')
    (hv2 : k2.variant = none ∨ ∃ v, k2.variant = some v ∧ v.data ≠ [] ∧
      v.data.getLast? ≠ some ':') :
    canonical_tile_id k1 = canonical_tile_id k2 ↔ k1 = k2 := by
  constructor
  · intro heq
    have hchars : canonicalChars k1 = canonicalChars k2 :=
      congrArg String.data heq
    have e1 : k1 = ⟨k1.source, k1.z, k1.x, k1.y, k1.variant⟩ := rfl
    have e2 : k2 = ⟨k2.source, k2.z, k2.x, k2.y, k2.variant⟩ := rfl
    rcases hv1 with hn1 | ⟨v1, hsome1, hne1, hl1⟩
    · rcases hv2 with hn2 | ⟨v2, hsome2, hne2, hl2⟩
      · rw [canonicalChars_none k1 hn1, canonicalChars_none k2 hn2] at hchars
        obtain ⟨hsrc, hzxy⟩ := append_sep_inj ':'
          k1.source.data _ k2.source.data _ hs1 hs2 hchars
        obtain ⟨hz, hx, hy⟩ := zxy_inj _ _ _ _ _ _ hzxy
        rw [e1, e2, str_eq_of_data k1.source k2.source hsrc,
          hz, hx, hy, hn1, hn2]
      · exfalso
        rw [canonicalChars_none k1 hn1,
          canonicalChars_some k2 v2 hsome2 hne2 hl2] at hchars
        obtain ⟨hsrc, hzxy⟩ := append_sep_inj ':'
          k1.source.data _ k2.source.data _ hs1 hs2 hchars
        have hmem : ':' ∈ intChars k2.z ++ '/' :: (intChars k2.x ++
            '/' :: (intChars k2.y ++ ':' :: v2.data)) := by
          simp
        rw [← hzxy] at hmem
        exact colon_not_mem_zxy k1.z k1.x k1.y hmem
    · rcases hv2 with hn2 | ⟨v2, hsome2, hne2, hl2⟩
      · exfalso
        rw [canonicalChars_some k1 v1 hsome1 hne1 hl1,
          canonicalChars_none k2 hn2] at hchars
        obtain ⟨hsrc, hzxy⟩ := append_sep_inj ':'
          k1.source.data _ k2.source.data _ hs1 hs2 hchars
        have hmem : ':' ∈ intChars k1.z ++ '/' :: (intChars k1.x ++
            '/' :: (intChars k1.y ++ ':' :: v1.data)) := by
          simp
        rw [hzxy] at hmem
        exact colon_not_mem_zxy k2.z k2.x k2.y hmem
      · rw [canonicalChars_some k1 v1 hsome1 hne1 hl1,
          canonicalChars_some k2 v2 hsome2 hne2 hl2] at hchars
        obtain ⟨hsrc, hrest⟩ := append_sep_inj ':'
          k1.source.data _ k2.source.data _ hs1 hs2 hchars
        have hre1 : intChars k1.z ++ '/' :: (intChars k1.x ++
            '/' :: (intChars k1.y ++ ':' :: v1.data)) =
            (intChars k1.z ++ '/' :: (intChars k1.x ++
              '/' :: intChars k1.y)) ++ ':' :: v1.data := by
          simp
        have hre2 : intChars k2.z ++ '/' :: (intChars k2.x ++
            '/' :: (intChars k2.y ++ ':' :: v2.data)) =
            (intChars k2.z ++ '/' :: (intChars k2.x ++
              '/' :: intChars k2.y)) ++ ':' :: v2.data := by
          simp
        rw [hre1, hre2] at hrest
        obtain ⟨hzxy, hvd⟩ := append_sep_inj ':' _ _ _ _
          (colon_not_mem_zxy k1.z k1.x k1.y) (colon_not_mem_zxy k2.z k2.x k2.y)
          hrest
        obtain ⟨hz, hx, hy⟩ := zxy_inj _ _ _ _ _ _ hzxy
        have hvar : k1.variant = k2.variant := by
          rw [hsome1, hsome2, str_eq_of_data v1 v2 hvd]
        rw [e1, e2, str_eq_of_data k1.source k2.source hsrc, hz, hx, hy, hvar]
  · intro h
    rw [h]

def keyW : TileKey := { source := "sat", z := 10, x := 512, y := 333 }

/-- C9 witness: the amended equivalence applied to a concrete colon-free
key; its canonical id evaluates as expected and determines the key. -/
theorem tile_key_canonical_iff_witness :
    (':' ∉ keyW.source.data) ∧ keyW.variant = none ∧
    canonical_tile_id keyW = "sat:10/512/333" ∧ keyW = keyW := by
  have h := tile_key_canonical_iff keyW keyW (by decide) (by decide)
    (Or.inl rfl) (Or.inl rfl)
  exact ⟨by decide, rfl, by decide, h.mp rfl⟩

end Retriever
